import Mathlib

/-!
# The gRPC gateway task supervisor of `proto/go/main.go`

A shallow embedding of the two exported functions `SpawnGrpcGateway` and
`WaitForGrpcGateway`, of the package-level map `servers`, and of the goroutine
that `SpawnGrpcGateway` launches.

* A Go `error` is an `Option String`; `none` is `nil`.
* A channel is its buffer, its capacity and its closed flag.
* Every call of `SpawnGrpcGateway` creates one context (with its `cancel`),
  one channel and one goroutine.  They are kept together in one `Task` cell of
  the heap `World.tasks`; a reference to the channel or to the cancel function
  is the index of the cell.
* `gateway.Run` lives in another package.  It is a parameter
  `Run : Bool → Options → Option GoError` of the goroutine: from the state of
  the context (cancelled or not) and the options it either keeps blocking
  (`none`) or returns an error value (`some err`).
* Goroutines advance one statement at a time, in the order given by a schedule
  (a list of task indices).  A blocking receive lets the schedule run until
  the channel has a value or is closed.
* A handle is a Go `int`, here an `Int`: `len(servers) + 1` does not overflow,
  a map with `2^63` entries does not fit in memory.
* The two exported functions are first taken as whole calls made one after
  another by the caller, with goroutine steps in between (`run`).  The last
  part takes `SpawnGrpcGateway` apart into the steps of a caller thread, to
  look at calls made by several threads at once (`runThreads`).
-/

namespace GrpcGateway

/-! ## Data model -/

/-- A value of the Go interface type `error`; `none` is `nil`. -/
abbrev GoError := Option String

/-- The struct `gateway.Endpoint`, as built at lines 30-33. -/
structure Endpoint where
  Network : String
  Addr : String
deriving DecidableEq, Repr

/-- The struct `gateway.Options`, as built at lines 28-35. -/
structure Options where
  Addr : String
  GRPCServer : Endpoint
  OpenAPIDir : String
deriving DecidableEq, Repr

/-- The collaborator `gateway.Run(ctx, opts)`: given whether `ctx` is
cancelled, it is still blocked (`none`) or has returned `err` (`some err`). -/
abbrev RunFn := Bool → Options → Option GoError

/-- A channel of `error` values (`make(chan error, 1)` has `cap = 1`). -/
structure Chan where
  buf : List GoError
  cap : Nat
  closed : Bool
deriving DecidableEq, Repr

/-- Where the goroutine of lines 38-46 stands. -/
inductive Pc where
  /-- inside `gateway.Run(ctx, opts)` (line 41) -/
  | inRun
  /-- `Run` has returned into `err`; next is the test `err != nil` and the send (lines 41-44) -/
  | afterRun
  /-- the body is over; next is the deferred `close(ch)` (line 39) -/
  | atClose
  /-- the goroutine has ended -/
  | exited
  /-- the goroutine panicked (send on, or close of, a closed channel) -/
  | panicked
deriving DecidableEq, Repr

/-- The objects one `SpawnGrpcGateway` call creates: the options, the context
(`cancelled` after `cancel()`), the channel, and the goroutine (its program
counter and its local `err`). -/
structure Task where
  opts : Options
  cancelled : Bool
  ch : Chan
  pc : Pc
  err : GoError
deriving DecidableEq, Repr

/-- The struct `server` (lines 14-17): `ch` and `cancel` refer to the task cell
holding the channel, respectively the context that `cancel` cancels. -/
structure server where
  ch : Nat
  cancel : Nat
deriving DecidableEq, Repr

/-- The program state: the map `servers` (lines 19-21) as an association list,
and the heap of tasks. -/
structure World where
  servers : List (Int × server)
  tasks : List Task
deriving DecidableEq, Repr

/-- The state at program start: `servers = make(map[int]*server)`. -/
def World.empty : World := ⟨[], []⟩

/-! ## Go maps -/

/-- The lookup `m[k]` with the comma-ok form. -/
def mapLookup : List (Int × server) → Int → Option server
  | [], _ => none
  | (k', v) :: m, k => if k' = k then some v else mapLookup m k

/-- The assignment `m[k] = v`. -/
def mapStore : List (Int × server) → Int → server → List (Int × server)
  | [], k, v => [(k, v)]
  | (k', v') :: m, k, v => if k' = k then (k, v) :: m else (k', v') :: mapStore m k v

/-- The builtin `len(m)`. -/
def mapLen (m : List (Int × server)) : Int := (m.length : Int)

/-! ## Channels -/

/-- The receive `<-c`: `none` when it has to block. -/
def chanRecv (c : Chan) : Option (GoError × Chan) :=
  match c.buf with
  | v :: rest => some (v, { c with buf := rest })
  | [] => if c.closed then some (none, c) else none

/-! ## The goroutine -/

/-- Replace task `i`. -/
def setTask (w : World) (i : Nat) (t : Task) : World :=
  { w with tasks := w.tasks.set i t }

/-- One statement of the goroutine body (lines 38-46) on its own task cell:
the call of `gateway.Run`, the test `err != nil` with the send `ch <- err`,
the deferred `close(ch)`.  A blocked statement leaves the cell as it is. -/
def Task.step (Run : RunFn) (t : Task) : Task :=
  match t.pc with
  | Pc.inRun =>
    match Run t.cancelled t.opts with
    | none => t
    | some e => { t with pc := Pc.afterRun, err := e }
  | Pc.afterRun =>
    if t.err ≠ none then
      if t.ch.closed then { t with pc := Pc.panicked }
      else if t.ch.buf.length < t.ch.cap then
        { t with ch := { t.ch with buf := t.ch.buf ++ [t.err] }, pc := Pc.atClose }
      else t
    else { t with pc := Pc.atClose }
  | Pc.atClose =>
    if t.ch.closed then { t with pc := Pc.panicked }
    else { t with ch := { t.ch with closed := true }, pc := Pc.exited }
  | Pc.exited => t
  | Pc.panicked => t

/-- One step of the goroutine of task `g`. -/
def goStep (Run : RunFn) (w : World) (g : Nat) : World :=
  match w.tasks[g]? with
  | none => w
  | some t => setTask w g (t.step Run)

/-- Run the goroutines in the order of a schedule. -/
def goSteps (Run : RunFn) (w : World) : List Nat → World
  | [] => w
  | g :: rest => goSteps Run (goStep Run w g) rest

/-! ## The exported functions -/

/-- Lines 25-46 of `SpawnGrpcGateway`: the context, the options, the channel
and the goroutine.  Returns the index of the new task cell. -/
def spawnPrepare (w : World) (listenAddr network endpoint swaggerDir : String) : World × Nat :=
  let opts : Options :=
    { Addr := listenAddr, GRPCServer := { Network := network, Addr := endpoint },
      OpenAPIDir := swaggerDir }
  let ch : Chan := { buf := [], cap := 1, closed := false }
  ({ w with tasks := w.tasks ++ [{ opts := opts, cancelled := false, ch := ch,
                                   pc := Pc.inRun, err := none }] },
   w.tasks.length)

/-- Line 49: `handle := len(servers) + 1`. -/
def spawnHandle (w : World) : Int := mapLen w.servers + 1

/-- Lines 50-53: `servers[handle] = &server{ch: ch, cancel: cancel}`. -/
def spawnStore (w : World) (handle : Int) (ch cancel : Nat) : World :=
  { w with servers := mapStore w.servers handle { ch := ch, cancel := cancel } }

/-- The function `SpawnGrpcGateway` (lines 24-55). -/
def SpawnGrpcGateway (w : World) (listenAddr network endpoint swaggerDir : String) : Int × World :=
  let (w1, t) := spawnPrepare w listenAddr network endpoint swaggerDir
  let handle := spawnHandle w1
  (handle, spawnStore w1 handle t t)

/-- The call `s.cancel()` (line 64). -/
def cancelTask (w : World) (i : Nat) : World :=
  match w.tasks[i]? with
  | none => w
  | some t => setTask w i { t with cancelled := true }

/-- A receive attempt on the channel of task `i`. -/
def tryRecv (w : World) (i : Nat) : Option (GoError × World) :=
  match w.tasks[i]? with
  | none => none
  | some t =>
    match chanRecv t.ch with
    | none => none
    | some (v, c) => some (v, setTask w i { t with ch := c })

/-- The blocking receive `<-s.ch` (line 65): while the receive has to block,
the goroutines of the schedule run; `none` when the schedule ends with the
receive still blocked. -/
def recvBlocking (Run : RunFn) (w : World) (i : Nat) : List Nat → Option (GoError × World)
  | [] => tryRecv w i
  | g :: rest =>
    match tryRecv w i with
    | some r => some r
    | none => recvBlocking Run (goStep Run w g) i rest

/-- The function `WaitForGrpcGateway` (lines 58-67); `sched` is what the
goroutines do while the call is blocked, `none` is a call still blocked at the
end of `sched`. -/
def WaitForGrpcGateway (Run : RunFn) (w : World) (handle : Int) (sched : List Nat) :
    Option (Bool × World) :=
  match mapLookup w.servers handle with
  | none => some (false, w)
  | some s =>
    match recvBlocking Run (cancelTask w s.cancel) s.ch sched with
    | none => none
    | some (err, w2) => some (err == none, w2)

/-! ## Executions -/

/-- What happens in an execution: a call of one of the two exported functions
by the caller, or a step of a goroutine between two calls. -/
inductive Call where
  | spawn (listenAddr network endpoint swaggerDir : String)
  | wait (handle : Int) (sched : List Nat)
  | go (g : Nat)
deriving DecidableEq, Repr

/-- What a call gave back. -/
inductive Ret where
  | handle (h : Int)
  | joined (ok : Bool)
  | stepped
deriving DecidableEq, Repr

/-- One call; `none` when a wait is still blocked at the end of its schedule. -/
def call (Run : RunFn) (w : World) : Call → Option (Ret × World)
  | Call.spawn a b c d =>
    let r := SpawnGrpcGateway w a b c d
    some (Ret.handle r.1, r.2)
  | Call.wait h sched =>
    match WaitForGrpcGateway Run w h sched with
    | none => none
    | some (b, w2) => some (Ret.joined b, w2)
  | Call.go g => some (Ret.stepped, goStep Run w g)

/-- The calls of a list one after another, with what each gave back. -/
def run (Run : RunFn) (w : World) : List Call → Option (List Ret × World)
  | [] => some ([], w)
  | c :: cs =>
    match call Run w c with
    | none => none
    | some (r, w1) =>
      match run Run w1 cs with
      | none => none
      | some (rs, w2) => some (r :: rs, w2)

/-- The handles among the results. -/
def handlesOf : List Ret → List Int
  | [] => []
  | Ret.handle h :: rs => h :: handlesOf rs
  | _ :: rs => handlesOf rs

/-- The keys of the map. -/
def mapKeys (m : List (Int × server)) : List Int := m.map Prod.fst

/-- A collaborator that serves until its context is cancelled and then stops
cleanly. -/
def runUntilCancelled : RunFn := fun cancelled _ => if cancelled then some none else none

/-- A collaborator that fails at once. -/
def runFailing : RunFn := fun _ _ => some (some "unreachable backend")

/-! ## What a task looks like before and after the first receive -/

/-- What the goroutine puts on the channel for the value `Run` returned. -/
def sent (e : GoError) : List GoError := if e ≠ none then [e] else []

/-- The local `err` of the goroutine is a value `gateway.Run` returned. -/
def Task.Returned (Run : RunFn) (t : Task) : Prop := ∃ c, Run c t.opts = some t.err

/-- A task nobody has received from yet: the channel is empty and open up to
the send, holds what was sent after it, and is closed once the goroutine has
ended. -/
def Task.Fresh (Run : RunFn) (t : Task) : Prop :=
  t.ch.cap = 1 ∧
  match t.pc with
  | Pc.inRun => t.ch.buf = [] ∧ t.ch.closed = false
  | Pc.afterRun => t.ch.buf = [] ∧ t.ch.closed = false ∧ t.Returned Run
  | Pc.atClose => t.ch.buf = sent t.err ∧ t.ch.closed = false ∧ t.Returned Run
  | Pc.exited => t.ch.buf = sent t.err ∧ t.ch.closed = true ∧ t.Returned Run
  | Pc.panicked => False

/-- A task whose first receive is over: `Run` has returned, the channel is
empty, and it is closed exactly when the goroutine has ended. -/
def Task.Drained (Run : RunFn) (t : Task) : Prop :=
  t.ch.cap = 1 ∧ t.ch.buf = [] ∧ t.Returned Run ∧
  ((t.pc = Pc.atClose ∧ t.ch.closed = false) ∨ (t.pc = Pc.exited ∧ t.ch.closed = true))

/-- Task `i` exists and has property `P`. -/
def HoldsAt (P : Task → Prop) (w : World) (i : Nat) : Prop :=
  ∃ t, w.tasks[i]? = some t ∧ P t

/-- The registry after `n` spawns: handle `i + 1` refers to task `i`. -/
def registryOf (n : Nat) : List (Int × server) :=
  (List.range n).map (fun (i : Nat) => ((i : Int) + 1, { ch := i, cancel := i }))

/-- The worlds in which the registry is the one of as many spawns as there
are tasks. -/
def World.Aligned (w : World) : Prop := w.servers = registryOf w.tasks.length

/-- No call of the list is a wait on handle `h`. -/
def NoWaitOn (h : Int) : List Call → Prop
  | [] => True
  | Call.wait h' _ :: cs => h' ≠ h ∧ NoWaitOn h cs
  | _ :: cs => NoWaitOn h cs

instance NoWaitOn.decidable (h : Int) : ∀ cs, Decidable (NoWaitOn h cs)
  | [] => isTrue trivial
  | Call.wait h2 _ :: cs =>
    match NoWaitOn.decidable h cs with
    | isTrue p => if q : h2 ≠ h then isTrue ⟨q, p⟩ else isFalse (fun x => q x.1)
    | isFalse p => isFalse (fun x => p x.2)
  | Call.spawn _ _ _ _ :: cs => NoWaitOn.decidable h cs
  | Call.go _ :: cs => NoWaitOn.decidable h cs

/-! ## Further definitions: task shapes, execution bookkeeping, caller threads -/

/-- The task cell a spawn creates. -/
def newTask (listenAddr network endpoint swaggerDir : String) : Task :=
  { opts := { Addr := listenAddr, GRPCServer := { Network := network, Addr := endpoint },
              OpenAPIDir := swaggerDir },
    cancelled := false, ch := { buf := [], cap := 1, closed := false },
    pc := Pc.inRun, err := none }

/-- The number of spawn calls of a list. -/
def spawnCount : List Call → Nat
  | [] => 0
  | Call.spawn _ _ _ _ :: cs => spawnCount cs + 1
  | _ :: cs => spawnCount cs

/-- The handles `1, ..., n`. -/
def firstHandles (n : Nat) : List Int := (List.range' 1 n).map (fun (k : Nat) => (k : Int))

/-- A collaborator that fails at once when the listen address is `"bad"` and
otherwise serves until its context is cancelled. -/
def runByAddr : RunFn := fun cancelled o =>
  if o.Addr = "bad" then some (some "listen failed")
  else if cancelled then some none else none

/-- Two tasks spawned from the empty registry: task 0 serves, task 1 has the
listen address `"bad"`. -/
def twoTasks : World :=
  (SpawnGrpcGateway (SpawnGrpcGateway World.empty "good" "tcp" "e" "s").2 "bad" "tcp" "e" "s").2

/-- The world `twoTasks` after handle 2 has been joined with two steps of its
goroutine. -/
def twoTasksJoined : World :=
  { servers := [(1, { ch := 0, cancel := 0 }), (2, { ch := 1, cancel := 1 })],
    tasks := [newTask "good" "tcp" "e" "s",
      { (newTask "bad" "tcp" "e" "s") with
        cancelled := true, pc := Pc.atClose, err := some "listen failed" }] }

/-- Where a caller thread stands inside `SpawnGrpcGateway`. -/
inductive SpawnPc where
  /-- before line 25 -/
  | start
  /-- lines 25-48 are done; next is `handle := len(servers) + 1` (line 49) -/
  | atHandle
  /-- `handle` is computed; next is the store of lines 50-53 -/
  | atStore
  /-- `return handle` (line 54) is done -/
  | returned
deriving DecidableEq, Repr

/-- A caller thread inside `SpawnGrpcGateway`: its arguments, where it stands,
and its locals `ch`/`cancel` (the task cell it created) and `handle`. -/
structure SpawnThread where
  listenAddr : String
  network : String
  endpoint : String
  swaggerDir : String
  pc : SpawnPc
  task : Nat
  handle : Int
deriving DecidableEq, Repr

/-- A thread that is about to call `SpawnGrpcGateway`. -/
def SpawnThread.init (a b c d : String) : SpawnThread :=
  { listenAddr := a, network := b, endpoint := c, swaggerDir := d,
    pc := SpawnPc.start, task := 0, handle := 0 }

/-- One step of a caller thread.  The code takes no lock, so the steps of
different threads interleave freely. -/
def spawnThreadStep (w : World) (th : SpawnThread) : World × SpawnThread :=
  match th.pc with
  | SpawnPc.start =>
    let r := spawnPrepare w th.listenAddr th.network th.endpoint th.swaggerDir
    (r.1, { th with pc := SpawnPc.atHandle, task := r.2 })
  | SpawnPc.atHandle => (w, { th with pc := SpawnPc.atStore, handle := spawnHandle w })
  | SpawnPc.atStore => (spawnStore w th.handle th.task th.task, { th with pc := SpawnPc.returned })
  | SpawnPc.returned => (w, th)

/-- The threads step in the order of a schedule (a list of thread indices). -/
def runThreads (w : World) (ths : List SpawnThread) : List Nat → World × List SpawnThread
  | [] => (w, ths)
  | i :: rest =>
    match ths[i]? with
    | none => runThreads w ths rest
    | some th => runThreads (spawnThreadStep w th).1 (ths.set i (spawnThreadStep w th).2) rest

/-- The schedules in which the store of a thread directly follows its own
read of `len(servers)`: what a lock around lines 49-53 would enforce. -/
def atomicFrom (w : World) (ths : List SpawnThread) : List Nat → Bool
  | [] => true
  | i :: rest =>
    match ths[i]? with
    | none => atomicFrom w ths rest
    | some th =>
      (th.pc != SpawnPc.atHandle || rest.head? == some i) &&
        atomicFrom (spawnThreadStep w th).1 (ths.set i (spawnThreadStep w th).2) rest

/-- What holds between the atomic sections of the threads. -/
structure ThreadsOk (n0 : Nat) (w : World) (ths : List SpawnThread) : Prop where
  keys : mapKeys w.servers = firstHandles w.servers.length
  noStore : ∀ th ∈ ths, th.pc ≠ SpawnPc.atStore
  range : ∀ th ∈ ths, th.pc = SpawnPc.returned →
    (n0 : Int) < th.handle ∧ th.handle ≤ (w.servers.length : Int)
  distinct : ∀ (i j : Nat) (ti tj : SpawnThread), i ≠ j → ths[i]? = some ti → ths[j]? = some tj →
    ti.pc = SpawnPc.returned → tj.pc = SpawnPc.returned → ti.handle ≠ tj.handle

/-! ## Lemmas on maps -/

theorem mapLookup_mapStore_self (m : List (Int × server)) (k : Int) (v : server) :
    mapLookup (mapStore m k v) k = some v := by
  induction m with
  | nil => simp [mapStore, mapLookup]
  | cons p m ih =>
    obtain ⟨k', v'⟩ := p
    by_cases h : k' = k
    · simp [mapStore, mapLookup, h]
    · simp [mapStore, mapLookup, h, ih]

theorem mapStore_fresh (m : List (Int × server)) (k : Int) (v : server)
    (h : mapLookup m k = none) : mapStore m k v = m ++ [(k, v)] := by
  induction m with
  | nil => simp [mapStore]
  | cons p m ih =>
    obtain ⟨k', v'⟩ := p
    by_cases hk : k' = k
    · simp [mapLookup, hk] at h
    · simp [mapLookup, hk] at h
      simp [mapStore, hk, ih h]

theorem mapLookup_append (m₁ m₂ : List (Int × server)) (k : Int) :
    mapLookup (m₁ ++ m₂) k = (mapLookup m₁ k).or (mapLookup m₂ k) := by
  induction m₁ with
  | nil => simp [mapLookup]
  | cons p m ih =>
    obtain ⟨k', v'⟩ := p
    by_cases hk : k' = k
    · simp [mapLookup, hk]
    · simp [mapLookup, hk, ih]

theorem registryOf_succ (n : Nat) :
    registryOf (n + 1) = registryOf n ++ [((n : Int) + 1, { ch := n, cancel := n })] := by
  simp [registryOf, List.range_succ]

theorem mapLookup_registryOf (n : Nat) (h : Int) :
    mapLookup (registryOf n) h =
      if 1 ≤ h ∧ h ≤ n then some { ch := (h - 1).toNat, cancel := (h - 1).toNat } else none := by
  induction n with
  | zero =>
    have : ¬ (1 ≤ h ∧ h ≤ ((0 : Nat) : Int)) := by omega
    rw [if_neg this]
    rfl
  | succ n ih =>
    rw [registryOf_succ, mapLookup_append, ih]
    by_cases h1 : 1 ≤ h ∧ h ≤ n
    · have h2 : 1 ≤ h ∧ h ≤ ((n + 1 : Nat) : Int) := by omega
      rw [if_pos h1, if_pos h2]
      rfl
    · by_cases h3 : h = (n : Int) + 1
      · have h2 : 1 ≤ h ∧ h ≤ ((n + 1 : Nat) : Int) := by omega
        rw [if_neg h1, if_pos h2]
        have h5 : (h - 1).toNat = n := by omega
        simp [mapLookup, h3.symm, h5]
      · have h2 : ¬ (1 ≤ h ∧ h ≤ ((n + 1 : Nat) : Int)) := by omega
        have h4 : ¬ ((n : Int) + 1 = h) := fun e => h3 e.symm
        rw [if_neg h1, if_neg h2]
        simp [mapLookup, h4]

theorem mapKeys_registryOf (n : Nat) :
    mapKeys (registryOf n) = (List.range n).map (fun (i : Nat) => (i : Int) + 1) := by
  simp [mapKeys, registryOf, Function.comp_def]

theorem length_registryOf (n : Nat) : (registryOf n).length = n := by
  simp [registryOf]

/-! ## Lemmas on one task -/

theorem Task.step_opts (Run : RunFn) (t : Task) : (t.step Run).opts = t.opts := by
  unfold Task.step
  split
  · split <;> rfl
  · split
    · split
      · rfl
      · split <;> rfl
    · rfl
  · split <;> rfl
  · rfl
  · rfl

theorem Task.step_cancelled (Run : RunFn) (t : Task) : (t.step Run).cancelled = t.cancelled := by
  unfold Task.step
  split
  · split <;> rfl
  · split
    · split
      · rfl
      · split <;> rfl
    · rfl
  · split <;> rfl
  · rfl
  · rfl

theorem Task.Fresh.step_fresh {Run : RunFn} {t : Task} (h : t.Fresh Run) : (t.step Run).Fresh Run := by
  obtain ⟨opts, c, ⟨buf, cap, closed⟩, pc, err⟩ := t
  obtain ⟨hcap, h⟩ := h
  simp only at hcap
  subst hcap
  cases pc
  · obtain ⟨h1, h2⟩ := h
    simp only at h1 h2
    subst h1 h2
    unfold Task.step
    simp only
    cases hr : Run c opts with
    | none => exact ⟨rfl, rfl, rfl⟩
    | some e => exact ⟨rfl, rfl, rfl, c, hr⟩
  · obtain ⟨h1, h2, h3⟩ := h
    simp only at h1 h2
    subst h1 h2
    cases err with
    | none => exact ⟨rfl, rfl, rfl, h3⟩
    | some e => exact ⟨rfl, rfl, rfl, h3⟩
  · obtain ⟨h1, h2, h3⟩ := h
    simp only at h1 h2
    subst h1 h2
    exact ⟨rfl, rfl, rfl, h3⟩
  · exact ⟨rfl, h⟩
  · exact h.elim

theorem Task.Fresh.cancel_fresh {Run : RunFn} {t : Task} (h : t.Fresh Run) :
    Task.Fresh Run { t with cancelled := true } := by
  obtain ⟨opts, c, ch, pc, err⟩ := t
  cases pc <;> exact h

theorem Task.Fresh.recv_fresh {Run : RunFn} {t : Task} (h : t.Fresh Run) {v : GoError} {c : Chan}
    (hr : chanRecv t.ch = some (v, c)) :
    v = t.err ∧ Task.Drained Run { t with ch := c } := by
  obtain ⟨opts, cc, ⟨buf, cap, closed⟩, pc, err⟩ := t
  obtain ⟨hcap, h⟩ := h
  simp only at hcap
  subst hcap
  cases pc
  · obtain ⟨h1, h2⟩ := h
    simp only at h1 h2
    subst h1 h2
    simp [chanRecv] at hr
  · obtain ⟨h1, h2, _⟩ := h
    simp only at h1 h2
    subst h1 h2
    simp [chanRecv] at hr
  · obtain ⟨h1, h2, h3⟩ := h
    simp only at h1 h2
    subst h1 h2
    cases err with
    | none => simp [chanRecv, sent] at hr
    | some e =>
      simp [chanRecv, sent] at hr
      obtain ⟨hv, hc⟩ := hr
      subst hv hc
      exact ⟨rfl, rfl, rfl, h3, Or.inl ⟨rfl, rfl⟩⟩
  · obtain ⟨h1, h2, h3⟩ := h
    simp only at h1 h2
    subst h1 h2
    cases err with
    | none =>
      simp [chanRecv, sent] at hr
      obtain ⟨hv, hc⟩ := hr
      subst hv hc
      exact ⟨rfl, rfl, rfl, h3, Or.inr ⟨rfl, rfl⟩⟩
    | some e =>
      simp [chanRecv, sent] at hr
      obtain ⟨hv, hc⟩ := hr
      subst hv hc
      exact ⟨rfl, rfl, rfl, h3, Or.inr ⟨rfl, rfl⟩⟩
  · exact h.elim

theorem Task.Drained.step_drained {Run : RunFn} {t : Task} (h : t.Drained Run) :
    (t.step Run).Drained Run := by
  obtain ⟨opts, c, ⟨buf, cap, closed⟩, pc, err⟩ := t
  obtain ⟨hcap, hbuf, hret, h⟩ := h
  simp only at hcap hbuf
  subst hcap hbuf
  rcases h with ⟨hpc, hcl⟩ | ⟨hpc, hcl⟩
  · simp only at hpc hcl
    subst hpc hcl
    exact ⟨rfl, rfl, hret, Or.inr ⟨rfl, rfl⟩⟩
  · simp only at hpc hcl
    subst hpc hcl
    exact ⟨rfl, rfl, hret, Or.inr ⟨rfl, rfl⟩⟩

theorem Task.Drained.cancel_drained {Run : RunFn} {t : Task} (h : t.Drained Run) :
    Task.Drained Run { t with cancelled := true } := h

theorem Task.Drained.recv_drained {Run : RunFn} {t : Task} (h : t.Drained Run) {v : GoError} {c : Chan}
    (hr : chanRecv t.ch = some (v, c)) :
    v = none ∧ Task.Drained Run { t with ch := c } ∧ c.closed = true ∧ t.pc = Pc.exited := by
  obtain ⟨opts, cc, ⟨buf, cap, closed⟩, pc, err⟩ := t
  obtain ⟨hcap, hbuf, hret, h⟩ := h
  simp only at hcap hbuf
  subst hcap hbuf
  rcases h with ⟨hpc, hcl⟩ | ⟨hpc, hcl⟩
  · simp only at hpc hcl
    subst hpc hcl
    simp [chanRecv] at hr
  · simp only at hpc hcl
    subst hpc hcl
    simp [chanRecv] at hr
    obtain ⟨hv, hc⟩ := hr
    subst hv hc
    exact ⟨rfl, ⟨rfl, rfl, hret, Or.inr ⟨rfl, rfl⟩⟩, rfl, rfl⟩

theorem HoldsAt.mono {P Q : Task → Prop} {w : World} {i : Nat} (h : HoldsAt P w i)
    (hPQ : ∀ t, P t → Q t) : HoldsAt Q w i := by
  obtain ⟨t, ht, hp⟩ := h
  exact ⟨t, ht, hPQ t hp⟩

/-! ## Lemmas on the world -/

theorem setTask_servers (w : World) (i : Nat) (t : Task) : (setTask w i t).servers = w.servers :=
  rfl

theorem setTask_length (w : World) (i : Nat) (t : Task) :
    (setTask w i t).tasks.length = w.tasks.length := by
  simp [setTask]

theorem setTask_self {w : World} {i : Nat} {t₀ : Task} (h : w.tasks[i]? = some t₀) (t : Task) :
    (setTask w i t).tasks[i]? = some t := by
  have hi : i < w.tasks.length := by
    rcases Nat.lt_or_ge i w.tasks.length with hlt | hge
    · exact hlt
    · rw [List.getElem?_eq_none hge] at h
      cases h
  simp [setTask, List.getElem?_set, hi]

theorem setTask_other (w : World) {i j : Nat} (h : i ≠ j) (t : Task) :
    (setTask w i t).tasks[j]? = w.tasks[j]? := by
  simp [setTask, List.getElem?_set, h]

theorem goStep_servers (Run : RunFn) (w : World) (g : Nat) : (goStep Run w g).servers = w.servers := by
  unfold goStep
  split <;> rfl

theorem goStep_length (Run : RunFn) (w : World) (g : Nat) :
    (goStep Run w g).tasks.length = w.tasks.length := by
  unfold goStep
  split
  · rfl
  · exact setTask_length _ _ _

theorem goStep_self (Run : RunFn) (w : World) (g : Nat) :
    (goStep Run w g).tasks[g]? = (w.tasks[g]?).map (Task.step Run) := by
  unfold goStep
  cases h : w.tasks[g]? with
  | none => simp [h]
  | some t => simp [setTask_self h]

theorem goStep_other (Run : RunFn) (w : World) {g i : Nat} (h : g ≠ i) :
    (goStep Run w g).tasks[i]? = w.tasks[i]? := by
  unfold goStep
  split
  · rfl
  · exact setTask_other w h _

theorem goStep_holdsAt {P : Task → Prop} {Run : RunFn} (hP : ∀ t, P t → P (t.step Run))
    {w : World} {i : Nat} (h : HoldsAt P w i) (g : Nat) : HoldsAt P (goStep Run w g) i := by
  obtain ⟨t, ht, hp⟩ := h
  by_cases hg : g = i
  · subst hg
    exact ⟨t.step Run, by rw [goStep_self, ht]; rfl, hP t hp⟩
  · exact ⟨t, by rw [goStep_other Run w hg, ht], hp⟩

theorem goSteps_servers (Run : RunFn) (w : World) (sched : List Nat) :
    (goSteps Run w sched).servers = w.servers := by
  induction sched generalizing w with
  | nil => rfl
  | cons g rest ih => simp [goSteps, ih, goStep_servers]

theorem cancelTask_servers (w : World) (i : Nat) : (cancelTask w i).servers = w.servers := by
  unfold cancelTask
  split <;> rfl

theorem cancelTask_length (w : World) (i : Nat) :
    (cancelTask w i).tasks.length = w.tasks.length := by
  unfold cancelTask
  split
  · rfl
  · exact setTask_length _ _ _

theorem cancelTask_self (w : World) (i : Nat) :
    (cancelTask w i).tasks[i]? = (w.tasks[i]?).map (fun t => { t with cancelled := true }) := by
  unfold cancelTask
  cases h : w.tasks[i]? with
  | none => simp [h]
  | some t => simp [setTask_self h]

theorem cancelTask_other (w : World) {i j : Nat} (h : i ≠ j) :
    (cancelTask w i).tasks[j]? = w.tasks[j]? := by
  unfold cancelTask
  split
  · rfl
  · exact setTask_other w h _

theorem tryRecv_some {w w2 : World} {i : Nat} {v : GoError} (h : tryRecv w i = some (v, w2)) :
    ∃ t c, w.tasks[i]? = some t ∧ chanRecv t.ch = some (v, c) ∧
      w2 = setTask w i { t with ch := c } := by
  unfold tryRecv at h
  cases ht : w.tasks[i]? with
  | none => simp [ht] at h
  | some t =>
    simp only [ht] at h
    cases hc : chanRecv t.ch with
    | none => simp [hc] at h
    | some p =>
      obtain ⟨v', c⟩ := p
      simp only [hc, Option.some.injEq, Prod.mk.injEq] at h
      obtain ⟨hv, hw⟩ := h
      subst hv
      exact ⟨t, c, rfl, hc, hw.symm⟩

theorem tryRecv_servers {w w2 : World} {i : Nat} {v : GoError} (h : tryRecv w i = some (v, w2)) :
    w2.servers = w.servers := by
  obtain ⟨t, c, _, _, hw⟩ := tryRecv_some h
  rw [hw]
  rfl

theorem tryRecv_length {w w2 : World} {i : Nat} {v : GoError} (h : tryRecv w i = some (v, w2)) :
    w2.tasks.length = w.tasks.length := by
  obtain ⟨t, c, _, _, hw⟩ := tryRecv_some h
  rw [hw]
  exact setTask_length _ _ _

theorem tryRecv_other {w w2 : World} {i j : Nat} {v : GoError} (h : tryRecv w i = some (v, w2))
    (hij : i ≠ j) : w2.tasks[j]? = w.tasks[j]? := by
  obtain ⟨t, c, _, _, hw⟩ := tryRecv_some h
  rw [hw]
  exact setTask_other w hij _

theorem recvBlocking_servers {Run : RunFn} {i : Nat} {sched : List Nat} {w w2 : World}
    {v : GoError} (h : recvBlocking Run w i sched = some (v, w2)) : w2.servers = w.servers := by
  induction sched generalizing w with
  | nil => exact tryRecv_servers h
  | cons g rest ih =>
    unfold recvBlocking at h
    cases ht : tryRecv w i with
    | some r =>
      simp only [ht, Option.some.injEq] at h
      subst h
      exact tryRecv_servers ht
    | none =>
      simp only [ht] at h
      rw [ih h, goStep_servers]

theorem recvBlocking_length {Run : RunFn} {i : Nat} {sched : List Nat} {w w2 : World}
    {v : GoError} (h : recvBlocking Run w i sched = some (v, w2)) :
    w2.tasks.length = w.tasks.length := by
  induction sched generalizing w with
  | nil => exact tryRecv_length h
  | cons g rest ih =>
    unfold recvBlocking at h
    cases ht : tryRecv w i with
    | some r =>
      simp only [ht, Option.some.injEq] at h
      subst h
      exact tryRecv_length ht
    | none =>
      simp only [ht] at h
      rw [ih h, goStep_length]

/-- A receive on another task keeps every property of task `j` that the
goroutine steps keep. -/
theorem recvBlocking_holdsAt_other {P : Task → Prop} {Run : RunFn}
    (hP : ∀ t, P t → P (t.step Run)) {i j : Nat} (hij : i ≠ j) {sched : List Nat} {w w2 : World}
    {v : GoError} (h : recvBlocking Run w i sched = some (v, w2)) (hj : HoldsAt P w j) :
    HoldsAt P w2 j := by
  induction sched generalizing w with
  | nil =>
    obtain ⟨t, ht, hp⟩ := hj
    exact ⟨t, by rw [tryRecv_other h hij, ht], hp⟩
  | cons g rest ih =>
    unfold recvBlocking at h
    cases ht : tryRecv w i with
    | some r =>
      simp only [ht, Option.some.injEq] at h
      subst h
      obtain ⟨t, htj, hp⟩ := hj
      exact ⟨t, by rw [tryRecv_other ht hij, htj], hp⟩
    | none =>
      simp only [ht] at h
      exact ih h (goStep_holdsAt hP hj g)

/-- The first receive on a fresh task gives the value `Run` returned and
leaves the task drained. -/
theorem recvBlocking_fresh {Run : RunFn} {o : Options} {i : Nat} {sched : List Nat} {w w2 : World}
    {v : GoError} (h : recvBlocking Run w i sched = some (v, w2))
    (hf : HoldsAt (fun t => t.Fresh Run ∧ t.opts = o) w i) :
    ∃ t, w2.tasks[i]? = some t ∧ v = t.err ∧ t.Drained Run ∧ t.opts = o := by
  have key : ∀ (w w2 : World), tryRecv w i = some (v, w2) →
      HoldsAt (fun t => t.Fresh Run ∧ t.opts = o) w i →
      ∃ t, w2.tasks[i]? = some t ∧ v = t.err ∧ t.Drained Run ∧ t.opts = o := by
    intro w w2 ht hf
    obtain ⟨t, c, hti, hc, hw⟩ := tryRecv_some ht
    obtain ⟨t', hti', hfr, ho⟩ := hf
    rw [hti] at hti'
    cases hti'
    obtain ⟨hv, hd⟩ := hfr.recv_fresh hc
    exact ⟨{ t with ch := c }, by rw [hw]; exact setTask_self hti _, hv, hd, ho⟩
  induction sched generalizing w with
  | nil => exact key w w2 h hf
  | cons g rest ih =>
    unfold recvBlocking at h
    cases ht : tryRecv w i with
    | some r =>
      simp only [ht, Option.some.injEq] at h
      subst h
      exact key w w2 ht hf
    | none =>
      simp only [ht] at h
      exact ih h (goStep_holdsAt (fun t ⟨a, b⟩ => ⟨a.step_fresh, by rw [Task.step_opts]; exact b⟩) hf g)

/-- A receive on a drained task gives `nil`; the channel is closed and the
goroutine has ended by then, and the task stays drained. -/
theorem recvBlocking_drained {Run : RunFn} {o : Options} {i : Nat} {sched : List Nat}
    {w w2 : World} {v : GoError} (h : recvBlocking Run w i sched = some (v, w2))
    (hf : HoldsAt (fun t => t.Drained Run ∧ t.opts = o) w i) :
    v = none ∧
      HoldsAt (fun t => (t.Drained Run ∧ t.opts = o) ∧ t.ch.closed = true ∧ t.pc = Pc.exited) w2 i := by
  have key : ∀ (w w2 : World), tryRecv w i = some (v, w2) →
      HoldsAt (fun t => t.Drained Run ∧ t.opts = o) w i →
      v = none ∧
        HoldsAt (fun t => (t.Drained Run ∧ t.opts = o) ∧ t.ch.closed = true ∧ t.pc = Pc.exited)
          w2 i := by
    intro w w2 ht hf
    obtain ⟨t, c, hti, hc, hw⟩ := tryRecv_some ht
    obtain ⟨t', hti', hfr, ho⟩ := hf
    rw [hti] at hti'
    cases hti'
    obtain ⟨hv, hd, hcl, hpc⟩ := hfr.recv_drained hc
    exact ⟨hv, { t with ch := c }, by rw [hw]; exact setTask_self hti _, ⟨hd, ho⟩, hcl, hpc⟩
  induction sched generalizing w with
  | nil => exact key w w2 h hf
  | cons g rest ih =>
    unfold recvBlocking at h
    cases ht : tryRecv w i with
    | some r =>
      simp only [ht, Option.some.injEq] at h
      subst h
      exact key w w2 ht hf
    | none =>
      simp only [ht] at h
      exact ih h (goStep_holdsAt (fun t ⟨a, b⟩ => ⟨a.step_drained, by rw [Task.step_opts]; exact b⟩) hf g)

/-! ## Lemmas on the two exported functions -/

theorem spawn_tasks (w : World) (a b c d : String) :
    (SpawnGrpcGateway w a b c d).2.tasks = w.tasks ++ [newTask a b c d] := rfl

theorem spawn_handle (w : World) (a b c d : String) :
    (SpawnGrpcGateway w a b c d).1 = (w.servers.length : Int) + 1 := rfl

theorem spawn_servers (w : World) (a b c d : String) :
    (SpawnGrpcGateway w a b c d).2.servers =
      mapStore w.servers ((w.servers.length : Int) + 1)
        { ch := w.tasks.length, cancel := w.tasks.length } := rfl

theorem spawn_aligned {w : World} (h : w.Aligned) (a b c d : String) :
    (SpawnGrpcGateway w a b c d).2.Aligned := by
  unfold World.Aligned at *
  rw [spawn_servers, spawn_tasks, h, length_registryOf, List.length_append, List.length_singleton,
    registryOf_succ]
  apply mapStore_fresh
  rw [mapLookup_registryOf]
  have : ¬ ((1 : Int) ≤ (w.tasks.length : Int) + 1 ∧ (w.tasks.length : Int) + 1 ≤ w.tasks.length) := by
    omega
  rw [if_neg this]

theorem spawn_handle_aligned {w : World} (h : w.Aligned) (a b c d : String) :
    (SpawnGrpcGateway w a b c d).1 = (w.tasks.length : Int) + 1 := by
  unfold World.Aligned at h
  rw [spawn_handle, h, length_registryOf]

theorem spawn_holdsAt {P : Task → Prop} {w : World} {i : Nat} (h : HoldsAt P w i)
    (a b c d : String) : HoldsAt P (SpawnGrpcGateway w a b c d).2 i := by
  obtain ⟨t, ht, hp⟩ := h
  have hi : i < w.tasks.length := by
    rcases Nat.lt_or_ge i w.tasks.length with hlt | hge
    · exact hlt
    · rw [List.getElem?_eq_none hge] at ht
      cases ht
  refine ⟨t, ?_, hp⟩
  rw [spawn_tasks, List.getElem?_append_left hi, ht]

theorem spawn_new (w : World) (a b c d : String) :
    (SpawnGrpcGateway w a b c d).2.tasks[w.tasks.length]? = some (newTask a b c d) := by
  rw [spawn_tasks]
  simp

theorem newTask_fresh (Run : RunFn) (a b c d : String) : (newTask a b c d).Fresh Run :=
  ⟨rfl, rfl, rfl⟩

theorem wait_unknown (Run : RunFn) {w : World} {h : Int} (hl : mapLookup w.servers h = none)
    (sched : List Nat) : WaitForGrpcGateway Run w h sched = some (false, w) := by
  simp [WaitForGrpcGateway, hl]

theorem wait_known (Run : RunFn) {w : World} {h : Int} {s : server}
    (hl : mapLookup w.servers h = some s) (sched : List Nat) :
    WaitForGrpcGateway Run w h sched =
      (recvBlocking Run (cancelTask w s.cancel) s.ch sched).map
        (fun r => (r.1 == none, r.2)) := by
  simp only [WaitForGrpcGateway, hl]
  cases recvBlocking Run (cancelTask w s.cancel) s.ch sched with
  | none => rfl
  | some r => rfl

theorem wait_servers {Run : RunFn} {w w2 : World} {h : Int} {sched : List Nat} {b : Bool}
    (hw : WaitForGrpcGateway Run w h sched = some (b, w2)) : w2.servers = w.servers := by
  cases hl : mapLookup w.servers h with
  | none =>
    rw [wait_unknown Run hl] at hw
    cases hw
    rfl
  | some s =>
    rw [wait_known Run hl] at hw
    cases hr : recvBlocking Run (cancelTask w s.cancel) s.ch sched with
    | none => simp [hr] at hw
    | some r =>
      simp only [hr, Option.map_some', Option.some.injEq, Prod.mk.injEq] at hw
      obtain ⟨_, hw2⟩ := hw
      subst hw2
      rw [recvBlocking_servers hr, cancelTask_servers]

theorem wait_length {Run : RunFn} {w w2 : World} {h : Int} {sched : List Nat} {b : Bool}
    (hw : WaitForGrpcGateway Run w h sched = some (b, w2)) :
    w2.tasks.length = w.tasks.length := by
  cases hl : mapLookup w.servers h with
  | none =>
    rw [wait_unknown Run hl] at hw
    cases hw
    rfl
  | some s =>
    rw [wait_known Run hl] at hw
    cases hr : recvBlocking Run (cancelTask w s.cancel) s.ch sched with
    | none => simp [hr] at hw
    | some r =>
      simp only [hr, Option.map_some', Option.some.injEq, Prod.mk.injEq] at hw
      obtain ⟨_, hw2⟩ := hw
      subst hw2
      rw [recvBlocking_length hr, cancelTask_length]

theorem wait_aligned {Run : RunFn} {w w2 : World} {h : Int} {sched : List Nat} {b : Bool}
    (ha : w.Aligned) (hw : WaitForGrpcGateway Run w h sched = some (b, w2)) : w2.Aligned := by
  unfold World.Aligned at *
  rw [wait_servers hw, wait_length hw, ha]

theorem lookup_aligned {w : World} (ha : w.Aligned) (i : Nat) (hi : i < w.tasks.length) :
    mapLookup w.servers ((i : Int) + 1) = some { ch := i, cancel := i } := by
  unfold World.Aligned at ha
  rw [ha, mapLookup_registryOf]
  have h1 : (1 : Int) ≤ (i : Int) + 1 ∧ (i : Int) + 1 ≤ (w.tasks.length : Int) := by omega
  have h2 : ((i : Int) + 1 - 1).toNat = i := by omega
  rw [if_pos h1, h2]

/-- A wait on another handle keeps every property of task `i` that the
goroutine steps keep. -/
theorem wait_holdsAt_other {P : Task → Prop} {Run : RunFn} (hP : ∀ t, P t → P (t.step Run))
    {w w2 : World} {h : Int} {sched : List Nat} {b : Bool} {i : Nat} (ha : w.Aligned)
    (hne : h ≠ (i : Int) + 1) (hw : WaitForGrpcGateway Run w h sched = some (b, w2))
    (hi : HoldsAt P w i) : HoldsAt P w2 i := by
  cases hl : mapLookup w.servers h with
  | none =>
    rw [wait_unknown Run hl] at hw
    cases hw
    exact hi
  | some s =>
    have hs : s = { ch := (h - 1).toNat, cancel := (h - 1).toNat } ∧ 1 ≤ h := by
      unfold World.Aligned at ha
      rw [ha, mapLookup_registryOf] at hl
      by_cases hc : 1 ≤ h ∧ h ≤ (w.tasks.length : Int)
      · rw [if_pos hc] at hl
        cases hl
        exact ⟨rfl, hc.1⟩
      · rw [if_neg hc] at hl
        cases hl
    obtain ⟨hs, h1⟩ := hs
    have hji : (h - 1).toNat ≠ i := by omega
    rw [wait_known Run hl] at hw
    cases hr : recvBlocking Run (cancelTask w s.cancel) s.ch sched with
    | none => simp [hr] at hw
    | some r =>
      simp only [hr, Option.map_some', Option.some.injEq, Prod.mk.injEq] at hw
      obtain ⟨_, hw2⟩ := hw
      subst hw2
      subst hs
      refine recvBlocking_holdsAt_other hP hji hr ?_
      obtain ⟨t, ht, hp⟩ := hi
      exact ⟨t, by rw [cancelTask_other w hji, ht], hp⟩

/-- The first wait on a fresh task: the result tells whether `Run` returned
`nil`, and the task is drained afterwards. -/
theorem wait_fresh {Run : RunFn} {o : Options} {w w2 : World} {sched : List Nat} {b : Bool}
    {i : Nat} (ha : w.Aligned) (hw : WaitForGrpcGateway Run w ((i : Int) + 1) sched = some (b, w2))
    (hi : HoldsAt (fun t => t.Fresh Run ∧ t.opts = o) w i) :
    ∃ t, w2.tasks[i]? = some t ∧ b = (t.err == none) ∧ t.Drained Run ∧ t.opts = o := by
  obtain ⟨t, ht, hf, ho⟩ := hi
  have hlt : i < w.tasks.length := by
    rcases Nat.lt_or_ge i w.tasks.length with hlt | hge
    · exact hlt
    · rw [List.getElem?_eq_none hge] at ht
      cases ht
  rw [wait_known Run (lookup_aligned ha i hlt)] at hw
  cases hr : recvBlocking Run (cancelTask w i) i sched with
  | none => simp [hr] at hw
  | some r =>
    simp only [hr, Option.map_some', Option.some.injEq, Prod.mk.injEq] at hw
    obtain ⟨hb, hw2⟩ := hw
    subst hw2
    have hc : HoldsAt (fun t => t.Fresh Run ∧ t.opts = o) (cancelTask w i) i :=
      ⟨{ t with cancelled := true }, by rw [cancelTask_self, ht]; rfl, hf.cancel_fresh, ho⟩
    obtain ⟨t2, ht2, hv, hd, ho2⟩ := recvBlocking_fresh hr hc
    exact ⟨t2, ht2, by rw [← hb, hv], hd, ho2⟩

/-- A wait on a drained task returns true; the channel is closed and the
goroutine has ended by then, and the task stays drained. -/
theorem wait_drained {Run : RunFn} {o : Options} {w w2 : World} {sched : List Nat} {b : Bool}
    {i : Nat} (ha : w.Aligned) (hw : WaitForGrpcGateway Run w ((i : Int) + 1) sched = some (b, w2))
    (hi : HoldsAt (fun t => t.Drained Run ∧ t.opts = o) w i) :
    b = true ∧
      HoldsAt (fun t => (t.Drained Run ∧ t.opts = o) ∧ t.ch.closed = true ∧ t.pc = Pc.exited) w2 i := by
  obtain ⟨t, ht, hf, ho⟩ := hi
  have hlt : i < w.tasks.length := by
    rcases Nat.lt_or_ge i w.tasks.length with hlt | hge
    · exact hlt
    · rw [List.getElem?_eq_none hge] at ht
      cases ht
  rw [wait_known Run (lookup_aligned ha i hlt)] at hw
  cases hr : recvBlocking Run (cancelTask w i) i sched with
  | none => simp [hr] at hw
  | some r =>
    simp only [hr, Option.map_some', Option.some.injEq, Prod.mk.injEq] at hw
    obtain ⟨hb, hw2⟩ := hw
    subst hw2
    have hc : HoldsAt (fun t => t.Drained Run ∧ t.opts = o) (cancelTask w i) i :=
      ⟨{ t with cancelled := true }, by rw [cancelTask_self, ht]; rfl, hf.cancel_drained, ho⟩
    obtain ⟨hv, hd⟩ := recvBlocking_drained hr hc
    refine ⟨?_, hd⟩
    rw [← hb, hv]
    rfl

/-! ## Lemmas on executions -/

theorem run_cons {Run : RunFn} {w w2 : World} {c : Call} {cs : List Call} {rets : List Ret}
    (h : run Run w (c :: cs) = some (rets, w2)) :
    ∃ r w1 rs, call Run w c = some (r, w1) ∧ run Run w1 cs = some (rs, w2) ∧ rets = r :: rs := by
  unfold run at h
  cases hc : call Run w c with
  | none => simp [hc] at h
  | some p =>
    obtain ⟨r, w1⟩ := p
    simp only [hc] at h
    cases hr : run Run w1 cs with
    | none => simp [hr] at h
    | some q =>
      obtain ⟨rs, w3⟩ := q
      simp only [hr, Option.some.injEq, Prod.mk.injEq] at h
      obtain ⟨h1, h2⟩ := h
      subst h1 h2
      exact ⟨r, w1, rs, rfl, hr, rfl⟩

theorem call_wait {Run : RunFn} {w w1 : World} {h : Int} {sched : List Nat} {r : Ret}
    (hc : call Run w (Call.wait h sched) = some (r, w1)) :
    ∃ b, WaitForGrpcGateway Run w h sched = some (b, w1) ∧ r = Ret.joined b := by
  unfold call at hc
  cases hw : WaitForGrpcGateway Run w h sched with
  | none => simp [hw] at hc
  | some p =>
    obtain ⟨b, w3⟩ := p
    simp only [hw, Option.some.injEq, Prod.mk.injEq] at hc
    obtain ⟨h1, h2⟩ := hc
    subst h1 h2
    exact ⟨b, rfl, rfl⟩

theorem call_aligned {Run : RunFn} {w w1 : World} {c : Call} {r : Ret} (ha : w.Aligned)
    (hc : call Run w c = some (r, w1)) : w1.Aligned := by
  cases c with
  | spawn a b c d =>
    simp only [call, Option.some.injEq, Prod.mk.injEq] at hc
    rw [← hc.2]
    exact spawn_aligned ha a b c d
  | wait h sched =>
    obtain ⟨b, hw, _⟩ := call_wait hc
    exact wait_aligned ha hw
  | go g =>
    simp only [call, Option.some.injEq, Prod.mk.injEq] at hc
    rw [← hc.2]
    unfold World.Aligned at *
    rw [goStep_servers, goStep_length, ha]

theorem run_aligned {Run : RunFn} {cs : List Call} {w w2 : World} {rets : List Ret}
    (ha : w.Aligned) (h : run Run w cs = some (rets, w2)) : w2.Aligned := by
  induction cs generalizing w rets with
  | nil =>
    simp only [run, Option.some.injEq, Prod.mk.injEq] at h
    rw [← h.2]
    exact ha
  | cons c cs ih =>
    obtain ⟨r, w1, rs, hc, hr, _⟩ := run_cons h
    exact ih (call_aligned ha hc) hr

theorem empty_aligned : World.empty.Aligned := rfl

/-- From an aligned world the spawns of an execution return the next
integers, one after another. -/
theorem run_handles {Run : RunFn} {cs : List Call} {w w2 : World} {rets : List Ret}
    (ha : w.Aligned) (h : run Run w cs = some (rets, w2)) :
    handlesOf rets = (List.range' (w.tasks.length + 1) (spawnCount cs)).map (fun (k : Nat) => (k : Int)) ∧
      w2.tasks.length = w.tasks.length + spawnCount cs := by
  induction cs generalizing w rets with
  | nil =>
    simp only [run, Option.some.injEq, Prod.mk.injEq] at h
    obtain ⟨h1, h2⟩ := h
    subst h1 h2
    exact ⟨rfl, rfl⟩
  | cons c cs ih =>
    obtain ⟨r, w1, rs, hc, hr, hrets⟩ := run_cons h
    subst hrets
    obtain ⟨ih1, ih2⟩ := ih (call_aligned ha hc) hr
    cases c with
    | spawn a b c d =>
      simp only [call, Option.some.injEq, Prod.mk.injEq] at hc
      obtain ⟨hr1, hw1⟩ := hc
      subst hr1
      have hlen : w1.tasks.length = w.tasks.length + 1 := by
        rw [← hw1, spawn_tasks]
        simp
      rw [hlen] at ih1 ih2
      refine ⟨?_, by rw [ih2]; simp only [spawnCount]; omega⟩
      simp only [handlesOf, spawnCount, List.range', List.map_cons, ih1,
        spawn_handle_aligned ha]
      push_cast
      rfl
    | wait hh sched =>
      obtain ⟨b, hw, hb⟩ := call_wait hc
      subst hb
      rw [wait_length hw] at ih1 ih2
      exact ⟨ih1, ih2⟩
    | go g =>
      simp only [call, Option.some.injEq, Prod.mk.injEq] at hc
      obtain ⟨hr1, hw1⟩ := hc
      subst hr1
      rw [← hw1, goStep_length] at ih1 ih2
      exact ⟨ih1, ih2⟩

/-- Calls other than a wait on handle `i + 1` keep every property of task `i`
that the goroutine steps keep. -/
theorem run_holdsAt_noWait {P : Task → Prop} {Run : RunFn} (hP : ∀ t, P t → P (t.step Run))
    {i : Nat} {cs : List Call} {w w2 : World} {rets : List Ret} (ha : w.Aligned)
    (hn : NoWaitOn ((i : Int) + 1) cs) (h : run Run w cs = some (rets, w2))
    (hi : HoldsAt P w i) : HoldsAt P w2 i := by
  induction cs generalizing w rets with
  | nil =>
    simp only [run, Option.some.injEq, Prod.mk.injEq] at h
    rw [← h.2]
    exact hi
  | cons c cs ih =>
    obtain ⟨r, w1, rs, hc, hr, _⟩ := run_cons h
    have ha1 := call_aligned ha hc
    cases c with
    | spawn a b c d =>
      simp only [call, Option.some.injEq, Prod.mk.injEq] at hc
      refine ih ha1 hn hr ?_
      rw [← hc.2]
      exact spawn_holdsAt hi a b c d
    | wait hh sched =>
      obtain ⟨b, hw, _⟩ := call_wait hc
      exact ih ha1 hn.2 hr (wait_holdsAt_other hP ha hn.1 hw hi)
    | go g =>
      simp only [call, Option.some.injEq, Prod.mk.injEq] at hc
      refine ih ha1 hn hr ?_
      rw [← hc.2]
      exact goStep_holdsAt hP hi g

/-- Once drained, a task stays drained whatever is called. -/
theorem run_drained {Run : RunFn} {o : Options} {i : Nat} {cs : List Call} {w w2 : World}
    {rets : List Ret} (ha : w.Aligned) (h : run Run w cs = some (rets, w2))
    (hi : HoldsAt (fun t => t.Drained Run ∧ t.opts = o) w i) :
    HoldsAt (fun t => t.Drained Run ∧ t.opts = o) w2 i := by
  have hP : ∀ t : Task, (t.Drained Run ∧ t.opts = o) → ((t.step Run).Drained Run ∧ (t.step Run).opts = o) :=
    fun t ⟨a, b⟩ => ⟨a.step_drained, by rw [Task.step_opts]; exact b⟩
  induction cs generalizing w rets with
  | nil =>
    simp only [run, Option.some.injEq, Prod.mk.injEq] at h
    rw [← h.2]
    exact hi
  | cons c cs ih =>
    obtain ⟨r, w1, rs, hc, hr, _⟩ := run_cons h
    have ha1 := call_aligned ha hc
    cases c with
    | spawn a b c d =>
      simp only [call, Option.some.injEq, Prod.mk.injEq] at hc
      refine ih ha1 hr ?_
      rw [← hc.2]
      exact spawn_holdsAt hi a b c d
    | wait hh sched =>
      obtain ⟨b, hw, _⟩ := call_wait hc
      by_cases hne : hh = (i : Int) + 1
      · subst hne
        exact ih ha1 hr ((wait_drained ha hw hi).2.mono (fun _ h => h.1))
      · exact ih ha1 hr (wait_holdsAt_other hP ha hne hw hi)
    | go g =>
      simp only [call, Option.some.injEq, Prod.mk.injEq] at hc
      refine ih ha1 hr ?_
      rw [← hc.2]
      exact goStep_holdsAt hP hi g

/-! ## Progress of the goroutine and of a blocked receive -/

theorem tryRecv_isSome {w : World} {i : Nat} {t : Task} (ht : w.tasks[i]? = some t)
    (hc : (chanRecv t.ch).isSome = true) : (tryRecv w i).isSome = true := by
  unfold tryRecv
  simp only [ht]
  cases h : chanRecv t.ch with
  | none => simp [h] at hc
  | some p => rfl

theorem recvBlocking_of_try (Run : RunFn) {w : World} {i : Nat}
    (h : (tryRecv w i).isSome = true) (sched : List Nat) :
    (recvBlocking Run w i sched).isSome = true := by
  cases sched with
  | nil => exact h
  | cons g rest =>
    unfold recvBlocking
    cases ht : tryRecv w i with
    | none => simp [ht] at h
    | some r => rfl

theorem recvBlocking_of_later (Run : RunFn) {w : World} {i g : Nat} {rest : List Nat}
    (h : (recvBlocking Run (goStep Run w g) i rest).isSome = true) :
    (recvBlocking Run w i (g :: rest)).isSome = true := by
  unfold recvBlocking
  cases ht : tryRecv w i with
  | none => exact h
  | some r => rfl

/-- Three steps of its goroutine are enough for a fresh, cancelled task whose
`Run` returns on cancellation to make a receive possible. -/
theorem Task.Fresh.recv_after_three {Run : RunFn} {t : Task} (h : t.Fresh Run)
    (hc : t.cancelled = true) (hr : Run true t.opts ≠ none) :
    (chanRecv (((t.step Run).step Run).step Run).ch).isSome = true := by
  obtain ⟨opts, c, ⟨buf, cap, closed⟩, pc, err⟩ := t
  obtain ⟨hcap, h⟩ := h
  simp only at hcap hc hr
  subst hcap hc
  cases pc
  · obtain ⟨h1, h2⟩ := h
    simp only at h1 h2
    subst h1 h2
    cases hrun : Run true opts with
    | none => exact absurd hrun hr
    | some e =>
      cases e with
      | none => simp [Task.step, hrun, chanRecv]
      | some e => simp [Task.step, hrun, chanRecv]
  · obtain ⟨h1, h2, _⟩ := h
    simp only at h1 h2
    subst h1 h2
    cases err with
    | none => simp [Task.step, chanRecv]
    | some e => simp [Task.step, chanRecv]
  · obtain ⟨h1, h2, _⟩ := h
    simp only at h1 h2
    subst h1 h2
    cases err with
    | none => simp [Task.step, chanRecv, sent]
    | some e => simp [Task.step, chanRecv, sent]
  · obtain ⟨h1, h2, _⟩ := h
    simp only at h1 h2
    subst h1 h2
    cases err with
    | none => simp [Task.step, chanRecv, sent]
    | some e => simp [Task.step, chanRecv, sent]
  · exact h.elim

/-- One step of its goroutine is enough for a drained task to make a receive
possible. -/
theorem Task.Drained.recv_after_one {Run : RunFn} {t : Task} (h : t.Drained Run) :
    (chanRecv (t.step Run).ch).isSome = true := by
  obtain ⟨opts, c, ⟨buf, cap, closed⟩, pc, err⟩ := t
  obtain ⟨hcap, hbuf, hret, h⟩ := h
  simp only at hcap hbuf
  subst hcap hbuf
  rcases h with ⟨hpc, hcl⟩ | ⟨hpc, hcl⟩
  · simp only at hpc hcl
    subst hpc hcl
    simp [Task.step, chanRecv]
  · simp only at hpc hcl
    subst hpc hcl
    simp [Task.step, chanRecv]

/-- The first wait returns when `Run` returns on cancellation and the
goroutine gets three steps. -/
theorem wait_fresh_returns {Run : RunFn} {o : Options} {w : World} {i : Nat} (ha : w.Aligned)
    (hi : HoldsAt (fun t => t.Fresh Run ∧ t.opts = o) w i) (hr : Run true o ≠ none) :
    (WaitForGrpcGateway Run w ((i : Int) + 1) [i, i, i]).isSome = true := by
  obtain ⟨t, ht, hf, ho⟩ := hi
  have hlt : i < w.tasks.length := by
    rcases Nat.lt_or_ge i w.tasks.length with hlt | hge
    · exact hlt
    · rw [List.getElem?_eq_none hge] at ht
      cases ht
  rw [wait_known Run (lookup_aligned ha i hlt), Option.isSome_map']
  apply recvBlocking_of_later
  apply recvBlocking_of_later
  apply recvBlocking_of_later
  apply recvBlocking_of_try
  have h0 : (cancelTask w i).tasks[i]? = some { t with cancelled := true } := by
    rw [cancelTask_self, ht]
    rfl
  have h3 : (goStep Run (goStep Run (goStep Run (cancelTask w i) i) i) i).tasks[i]? =
      some ((({ t with cancelled := true } : Task).step Run).step Run |>.step Run) := by
    rw [goStep_self, goStep_self, goStep_self, h0]
    rfl
  refine tryRecv_isSome h3 (Task.Fresh.recv_after_three hf.cancel_fresh rfl ?_)
  subst ho
  exact hr

/-- A wait on a drained task returns when the goroutine gets one step. -/
theorem wait_drained_returns {Run : RunFn} {o : Options} {w : World} {i : Nat} (ha : w.Aligned)
    (hi : HoldsAt (fun t => t.Drained Run ∧ t.opts = o) w i) :
    (WaitForGrpcGateway Run w ((i : Int) + 1) [i]).isSome = true := by
  obtain ⟨t, ht, hf, ho⟩ := hi
  have hlt : i < w.tasks.length := by
    rcases Nat.lt_or_ge i w.tasks.length with hlt | hge
    · exact hlt
    · rw [List.getElem?_eq_none hge] at ht
      cases ht
  rw [wait_known Run (lookup_aligned ha i hlt), Option.isSome_map']
  apply recvBlocking_of_later
  apply recvBlocking_of_try
  have h0 : (cancelTask w i).tasks[i]? = some { t with cancelled := true } := by
    rw [cancelTask_self, ht]
    rfl
  have h1 : (goStep Run (cancelTask w i) i).tasks[i]? =
      some (({ t with cancelled := true } : Task).step Run) := by
    rw [goStep_self, h0]
    rfl
  exact tryRecv_isSome h1 (Task.Drained.recv_after_one hf.cancel_drained)

/-! ## Tasks along an execution -/

theorem holdsAt_lt {P : Task → Prop} {w : World} {i : Nat} (h : HoldsAt P w i) :
    i < w.tasks.length := by
  obtain ⟨t, ht, _⟩ := h
  rcases Nat.lt_or_ge i w.tasks.length with hlt | hge
  · exact hlt
  · rw [List.getElem?_eq_none hge] at ht
    cases ht

/-- Without a wait on handle `i + 1`, task `i` is fresh as soon as it
exists. -/
theorem run_fresh {Run : RunFn} {i : Nat} {cs : List Call} {w w2 : World} {rets : List Ret}
    (ha : w.Aligned) (hn : NoWaitOn ((i : Int) + 1) cs) (h : run Run w cs = some (rets, w2))
    (hi : i < w.tasks.length → HoldsAt (Task.Fresh Run) w i) :
    i < w2.tasks.length → HoldsAt (Task.Fresh Run) w2 i := by
  induction cs generalizing w rets with
  | nil =>
    simp only [run, Option.some.injEq, Prod.mk.injEq] at h
    rw [← h.2]
    exact hi
  | cons c cs ih =>
    obtain ⟨r, w1, rs, hc, hr, _⟩ := run_cons h
    have ha1 := call_aligned ha hc
    cases c with
    | spawn a b c d =>
      simp only [call, Option.some.injEq, Prod.mk.injEq] at hc
      refine ih ha1 hn hr ?_
      rw [← hc.2]
      intro hlt
      by_cases hlt0 : i < w.tasks.length
      · exact spawn_holdsAt (hi hlt0) a b c d
      · have hlen : (SpawnGrpcGateway w a b c d).2.tasks.length = w.tasks.length + 1 := by
          rw [spawn_tasks]
          simp
        have hi0 : i = w.tasks.length := by omega
        subst hi0
        exact ⟨newTask a b c d, spawn_new w a b c d, newTask_fresh Run a b c d⟩
    | wait hh sched =>
      obtain ⟨b, hw, _⟩ := call_wait hc
      refine ih ha1 hn.2 hr ?_
      intro hlt
      rw [wait_length hw] at hlt
      exact wait_holdsAt_other (fun _ x => x.step_fresh) ha hn.1 hw (hi hlt)
    | go g =>
      simp only [call, Option.some.injEq, Prod.mk.injEq] at hc
      refine ih ha1 hn hr ?_
      rw [← hc.2]
      intro hlt
      rw [goStep_length] at hlt
      exact goStep_holdsAt (fun _ x => x.step_fresh) (hi hlt) g

/-- Whatever is called, a task is fresh or drained. -/
theorem run_fresh_or_drained {Run : RunFn} {i : Nat} {cs : List Call} {w w2 : World}
    {rets : List Ret} (ha : w.Aligned) (h : run Run w cs = some (rets, w2))
    (hi : HoldsAt (fun t => t.Fresh Run ∨ t.Drained Run) w i) :
    HoldsAt (fun t => t.Fresh Run ∨ t.Drained Run) w2 i := by
  have hP : ∀ t : Task, (t.Fresh Run ∨ t.Drained Run) →
      ((t.step Run).Fresh Run ∨ (t.step Run).Drained Run) :=
    fun t x => x.elim (fun y => Or.inl y.step_fresh) (fun y => Or.inr y.step_drained)
  induction cs generalizing w rets with
  | nil =>
    simp only [run, Option.some.injEq, Prod.mk.injEq] at h
    rw [← h.2]
    exact hi
  | cons c cs ih =>
    obtain ⟨r, w1, rs, hc, hr, _⟩ := run_cons h
    have ha1 := call_aligned ha hc
    cases c with
    | spawn a b c d =>
      simp only [call, Option.some.injEq, Prod.mk.injEq] at hc
      refine ih ha1 hr ?_
      rw [← hc.2]
      exact spawn_holdsAt hi a b c d
    | wait hh sched =>
      obtain ⟨b, hw, _⟩ := call_wait hc
      by_cases hne : hh = (i : Int) + 1
      · subst hne
        refine ih ha1 hr ?_
        obtain ⟨t, ht, hfd⟩ := hi
        rcases hfd with hf | hd
        · obtain ⟨t2, ht2, _, hd2, _⟩ :=
            wait_fresh ha hw (⟨t, ht, hf, rfl⟩ : HoldsAt (fun x => x.Fresh Run ∧ x.opts = t.opts) w i)
          exact ⟨t2, ht2, Or.inr hd2⟩
        · exact (wait_drained ha hw
            (⟨t, ht, hd, rfl⟩ : HoldsAt (fun x => x.Drained Run ∧ x.opts = t.opts) w i)).2.mono
            (fun _ x => Or.inr x.1.1)
      · exact ih ha1 hr (wait_holdsAt_other hP ha hne hw hi)
    | go g =>
      simp only [call, Option.some.injEq, Prod.mk.injEq] at hc
      refine ih ha1 hr ?_
      rw [← hc.2]
      exact goStep_holdsAt hP hi g

theorem recvBlocking_unscheduled {Run : RunFn} {i j : Nat} (hij : i ≠ j) {sched : List Nat}
    (hj : j ∉ sched) {w w2 : World} {v : GoError}
    (h : recvBlocking Run w i sched = some (v, w2)) : w2.tasks[j]? = w.tasks[j]? := by
  induction sched generalizing w with
  | nil => exact tryRecv_other h hij
  | cons g rest ih =>
    unfold recvBlocking at h
    cases ht : tryRecv w i with
    | some r =>
      simp only [ht, Option.some.injEq] at h
      subst h
      exact tryRecv_other ht hij
    | none =>
      simp only [ht] at h
      have hg : g ≠ j := fun e => hj (by rw [e]; exact List.mem_cons_self _ _)
      rw [ih (fun x => hj (List.mem_cons_of_mem _ x)) h, goStep_other Run w hg]

/-- The send does not block: from `afterRun` the goroutine gets to `atClose`
in one step, with what it sent in the channel. -/
theorem Task.step_afterRun {Run : RunFn} {t : Task} (h : t.Fresh Run ∨ t.Drained Run)
    (hpc : t.pc = Pc.afterRun) :
    t.ch.buf = [] ∧
      t.step Run = { t with ch := { t.ch with buf := sent t.err }, pc := Pc.atClose } := by
  obtain ⟨opts, c, ⟨buf, cap, closed⟩, pc, err⟩ := t
  simp only at hpc
  subst hpc
  rcases h with ⟨hcap, h1, h2, _⟩ | ⟨_, _, _, h | h⟩
  · simp only at hcap h1 h2
    subst hcap h1 h2
    cases err with
    | none => exact ⟨rfl, rfl⟩
    | some e => exact ⟨rfl, rfl⟩
  · exact Pc.noConfusion h.1
  · exact Pc.noConfusion h.1

theorem Task.step_atClose {Run : RunFn} {t : Task} (h : t.Fresh Run ∨ t.Drained Run)
    (hpc : t.pc = Pc.atClose) :
    t.step Run = { t with ch := { t.ch with closed := true }, pc := Pc.exited } := by
  obtain ⟨opts, c, ⟨buf, cap, closed⟩, pc, err⟩ := t
  simp only at hpc
  subst hpc
  rcases h with ⟨_, _, h2, _⟩ | ⟨_, _, _, h | h⟩
  · simp only at h2
    subst h2
    rfl
  · have h2 := h.2
    simp only at h2
    subst h2
    rfl
  · exact Pc.noConfusion h.1

theorem lookup_aligned_inv {w : World} (ha : w.Aligned) {h : Int} {s : server}
    (hl : mapLookup w.servers h = some s) :
    ∃ i, i < w.tasks.length ∧ h = (i : Int) + 1 ∧ s = { ch := i, cancel := i } := by
  unfold World.Aligned at ha
  rw [ha, mapLookup_registryOf] at hl
  by_cases hc : 1 ≤ h ∧ h ≤ (w.tasks.length : Int)
  · rw [if_pos hc] at hl
    cases hl
    exact ⟨(h - 1).toNat, by omega, by omega, rfl⟩
  · rw [if_neg hc] at hl
    cases hl

theorem wait_unscheduled {Run : RunFn} {w w2 : World} {h : Int} {sched : List Nat} {b : Bool}
    {i : Nat} (ha : w.Aligned) (hne : h ≠ (i : Int) + 1) (hi : i ∉ sched)
    (hw : WaitForGrpcGateway Run w h sched = some (b, w2)) : w2.tasks[i]? = w.tasks[i]? := by
  cases hl : mapLookup w.servers h with
  | none =>
    rw [wait_unknown Run hl] at hw
    cases hw
    rfl
  | some s =>
    obtain ⟨j, _, hj, hs⟩ := lookup_aligned_inv ha hl
    have hji : j ≠ i := by omega
    rw [wait_known Run hl] at hw
    cases hr : recvBlocking Run (cancelTask w s.cancel) s.ch sched with
    | none => simp [hr] at hw
    | some r =>
      simp only [hr, Option.map_some', Option.some.injEq, Prod.mk.injEq] at hw
      obtain ⟨_, hw2⟩ := hw
      subst hw2
      subst hs
      rw [recvBlocking_unscheduled hji hi hr, cancelTask_other w hji]

theorem goStep_agree (Run : RunFn) {w w0 : World} {j : Nat} (h : w0.tasks[j]? = w.tasks[j]?)
    (g : Nat) : (goStep Run w0 g).tasks[j]? = (goStep Run w g).tasks[j]? := by
  by_cases hg : g = j
  · subst hg
    rw [goStep_self, goStep_self, h]
  · rw [goStep_other Run w0 hg, goStep_other Run w hg, h]

/-- During a blocking receive on task `i`, all that happens to another task
`j` is what the steps of its own goroutine do. -/
theorem recvBlocking_agree {Run : RunFn} {i j : Nat} (hij : i ≠ j) {sched : List Nat}
    {w w2 : World} {v : GoError} (h : recvBlocking Run w i sched = some (v, w2)) (w0 : World)
    (h0 : w0.tasks[j]? = w.tasks[j]?) :
    ∃ k, k ≤ sched.length ∧ w2.tasks[j]? = (goSteps Run w0 (sched.take k)).tasks[j]? := by
  induction sched generalizing w w0 with
  | nil =>
    refine ⟨0, Nat.le_refl _, ?_⟩
    rw [tryRecv_other h hij, ← h0]
    rfl
  | cons g rest ih =>
    unfold recvBlocking at h
    cases ht : tryRecv w i with
    | some r =>
      simp only [ht, Option.some.injEq] at h
      subst h
      refine ⟨0, Nat.zero_le _, ?_⟩
      rw [tryRecv_other ht hij, ← h0]
      rfl
    | none =>
      simp only [ht] at h
      obtain ⟨k, hk, hk2⟩ := ih h (goStep Run w0 g) (goStep_agree Run h0 g)
      refine ⟨k + 1, by simp only [List.length_cons]; omega, ?_⟩
      rw [hk2]
      rfl

theorem wait_agree {Run : RunFn} {w w2 : World} {h : Int} {sched : List Nat} {b : Bool}
    {i : Nat} (ha : w.Aligned) (hne : h ≠ (i : Int) + 1)
    (hw : WaitForGrpcGateway Run w h sched = some (b, w2)) :
    ∃ k, k ≤ sched.length ∧ w2.tasks[i]? = (goSteps Run w (sched.take k)).tasks[i]? := by
  cases hl : mapLookup w.servers h with
  | none =>
    rw [wait_unknown Run hl] at hw
    cases hw
    exact ⟨0, Nat.zero_le _, rfl⟩
  | some s =>
    obtain ⟨j, _, hj, hs⟩ := lookup_aligned_inv ha hl
    have hji : j ≠ i := by omega
    rw [wait_known Run hl] at hw
    cases hr : recvBlocking Run (cancelTask w s.cancel) s.ch sched with
    | none => simp [hr] at hw
    | some r =>
      simp only [hr, Option.map_some', Option.some.injEq, Prod.mk.injEq] at hw
      obtain ⟨_, hw2⟩ := hw
      subst hw2
      subst hs
      exact recvBlocking_agree hji hr w (cancelTask_other w hji).symm

theorem newTask_three_steps {Run : RunFn} {a b c d : String} {r : GoError}
    (hr : Run false (newTask a b c d).opts = some r) :
    (((newTask a b c d).step Run).step Run).step Run =
      { (newTask a b c d) with
        ch := { buf := sent r, cap := 1, closed := true }, pc := Pc.exited, err := r } := by
  have h1 : (newTask a b c d).step Run = { (newTask a b c d) with pc := Pc.afterRun, err := r } := by
    simp only [Task.step, newTask] at hr ⊢
    rw [hr]
  rw [h1]
  cases r with
  | none => rfl
  | some e => rfl

/-! ## The handles of an execution from the empty registry -/

theorem mem_firstHandles (n : Nat) (h : Int) : h ∈ firstHandles n ↔ 1 ≤ h ∧ h ≤ n := by
  unfold firstHandles
  rw [List.mem_map]
  constructor
  · rintro ⟨k, hk, rfl⟩
    rw [List.mem_range'_1] at hk
    omega
  · intro hh
    refine ⟨h.toNat, ?_, by omega⟩
    rw [List.mem_range'_1]
    omega

theorem nodup_firstHandles (n : Nat) : (firstHandles n).Nodup := by
  unfold firstHandles
  refine List.Nodup.map ?_ (List.nodup_range' 1 n)
  intro x y hxy
  exact Int.ofNat.inj hxy

theorem mapKeys_registryOf_eq (n : Nat) : mapKeys (registryOf n) = firstHandles n := by
  rw [mapKeys_registryOf]
  unfold firstHandles
  rw [List.range'_eq_map_range, List.map_map]
  apply List.map_congr_left
  intro k _
  simp only [Function.comp_apply]
  omega

/-- From the empty registry: the spawns returned `1, ..., n`, the world has
`n` tasks and its registry is the one of `n` spawns. -/
theorem run_from_empty {Run : RunFn} {acts : List Call} {rets : List Ret} {w : World}
    (h : run Run World.empty acts = some (rets, w)) :
    handlesOf rets = firstHandles (spawnCount acts) ∧ w.tasks.length = spawnCount acts ∧
      w.servers = registryOf (spawnCount acts) := by
  obtain ⟨h1, h2⟩ := run_handles empty_aligned h
  have h3 : w.tasks.length = spawnCount acts := by
    rw [h2]
    simp [World.empty]
  have ha : w.Aligned := run_aligned empty_aligned h
  unfold World.Aligned at ha
  rw [h3] at ha
  exact ⟨h1, h3, ha⟩

/-! ## The claims -/

/-- C1: in every world reached from the empty registry, for every spawn and
every list of later calls without a wait on the new handle, the first
`WaitForGrpcGateway` on that handle that returns finds the goroutine past
`gateway.Run`, with the value `Run` returned in its `err`, and returns true
exactly when that value is `nil` and false exactly when it is an error,
whether or not the cancel of this wait is what made `Run` return.  The wait
does return when `Run` returns once cancelled and the goroutine gets three
steps. -/
theorem first_wait_reports_run_result (Run : RunFn) (acts mid : List Call)
    (rets rets2 : List Ret) (w w2 : World) (a b c d : String)
    (hreach : run Run World.empty acts = some (rets, w))
    (hmid : run Run (SpawnGrpcGateway w a b c d).2 mid = some (rets2, w2))
    (hfirst : NoWaitOn (SpawnGrpcGateway w a b c d).1 mid) :
    (∀ sched ok w3,
        WaitForGrpcGateway Run w2 (SpawnGrpcGateway w a b c d).1 sched = some (ok, w3) →
        ∃ t, w3.tasks[w.tasks.length]? = some t ∧ t.opts = (newTask a b c d).opts ∧
          t.pc ≠ Pc.inRun ∧ (∃ cancelled, Run cancelled t.opts = some t.err) ∧
          (ok = true ↔ t.err = none) ∧ (ok = false ↔ t.err ≠ none)) ∧
    (Run true (newTask a b c d).opts ≠ none →
      (WaitForGrpcGateway Run w2 (SpawnGrpcGateway w a b c d).1
        [w.tasks.length, w.tasks.length, w.tasks.length]).isSome = true) := by
  have ha : w.Aligned := run_aligned empty_aligned hreach
  have ha1 : (SpawnGrpcGateway w a b c d).2.Aligned := spawn_aligned ha a b c d
  have ha2 : w2.Aligned := run_aligned ha1 hmid
  have hh : (SpawnGrpcGateway w a b c d).1 = (w.tasks.length : Int) + 1 :=
    spawn_handle_aligned ha a b c d
  rw [hh] at hfirst ⊢
  have hf1 : HoldsAt (fun t => t.Fresh Run ∧ t.opts = (newTask a b c d).opts)
      (SpawnGrpcGateway w a b c d).2 w.tasks.length :=
    ⟨newTask a b c d, spawn_new w a b c d, newTask_fresh Run a b c d, rfl⟩
  have hf2 : HoldsAt (fun t => t.Fresh Run ∧ t.opts = (newTask a b c d).opts) w2 w.tasks.length :=
    run_holdsAt_noWait (fun t ⟨x, y⟩ => ⟨x.step_fresh, by rw [Task.step_opts]; exact y⟩) ha1 hfirst
      hmid hf1
  refine ⟨?_, fun hr => wait_fresh_returns ha2 hf2 hr⟩
  intro sched ok w3 hw
  obtain ⟨t, ht, hok, hd, ho⟩ := wait_fresh ha2 hw hf2
  refine ⟨t, ht, ho, ?_, hd.2.2.1, ?_, ?_⟩
  · rcases hd.2.2.2 with ⟨hpc, _⟩ | ⟨hpc, _⟩ <;> rw [hpc] <;> decide
  · rw [hok]
    cases t.err <;> simp
  · rw [hok]
    cases t.err <;> simp

/-- C1 at a concrete execution: a first task is spawned and its goroutine
takes a step, the second task is spawned with a collaborator that serves until
cancelled, the first goroutine steps again, and the second task is joined. -/
theorem first_wait_reports_run_result_witness :
    (run runUntilCancelled World.empty [Call.spawn "l" "tcp" "e" "s", Call.go 0] =
        some ([Ret.handle 1, Ret.stepped],
          (SpawnGrpcGateway World.empty "l" "tcp" "e" "s").2)) ∧
      (∀ sched ok w3,
        WaitForGrpcGateway runUntilCancelled
          (SpawnGrpcGateway (SpawnGrpcGateway World.empty "l" "tcp" "e" "s").2 "l2" "tcp" "e2" "s").2
          (SpawnGrpcGateway (SpawnGrpcGateway World.empty "l" "tcp" "e" "s").2 "l2" "tcp" "e2" "s").1
          sched = some (ok, w3) →
        ∃ t, w3.tasks[(SpawnGrpcGateway World.empty "l" "tcp" "e" "s").2.tasks.length]? = some t ∧
          t.opts = (newTask "l2" "tcp" "e2" "s").opts ∧
          t.pc ≠ Pc.inRun ∧ (∃ cancelled, runUntilCancelled cancelled t.opts = some t.err) ∧
          (ok = true ↔ t.err = none) ∧ (ok = false ↔ t.err ≠ none)) ∧
      (WaitForGrpcGateway runUntilCancelled
          (SpawnGrpcGateway (SpawnGrpcGateway World.empty "l" "tcp" "e" "s").2 "l2" "tcp" "e2" "s").2
          2 [1, 1, 1]).map Prod.fst = some true :=
  ⟨by decide,
   (first_wait_reports_run_result runUntilCancelled
      [Call.spawn "l" "tcp" "e" "s", Call.go 0] [Call.go 0] [Ret.handle 1, Ret.stepped]
      [Ret.stepped] (SpawnGrpcGateway World.empty "l" "tcp" "e" "s").2
      (SpawnGrpcGateway (SpawnGrpcGateway World.empty "l" "tcp" "e" "s").2 "l2" "tcp" "e2" "s").2
      "l2" "tcp" "e2" "s" (by decide) (by decide) (by decide)).1,
   by decide⟩

/-- C2: in every world reached from the empty registry, a wait on a handle
that no spawn returned gives false at once, for every schedule and also for
the empty one (no goroutine step is needed, nothing is received), and leaves
the world as it is.  Zero, the negative integers and the integers greater
than the number of spawns are such handles. -/
theorem wait_unknown_handle_false (Run : RunFn) (acts : List Call) (rets : List Ret) (w : World)
    (hreach : run Run World.empty acts = some (rets, w)) :
    (∀ h : Int, h ∉ handlesOf rets →
        ∀ sched, WaitForGrpcGateway Run w h sched = some (false, w)) ∧
    (∀ h : Int, h ≤ 0 ∨ (spawnCount acts : Int) < h → h ∉ handlesOf rets) := by
  obtain ⟨h1, _, h3⟩ := run_from_empty hreach
  constructor
  · intro h hn sched
    apply wait_unknown
    rw [h3, mapLookup_registryOf]
    rw [h1, mem_firstHandles] at hn
    rw [if_neg hn]
  · intro h hh
    rw [h1, mem_firstHandles]
    omega

/-- C2 after two spawns: the handles 0, -1 and 3 are unknown. -/
theorem wait_unknown_handle_false_witness :
    run runFailing World.empty [Call.spawn "l" "tcp" "e" "s", Call.spawn "l" "tcp" "e" "s"] =
        some ([Ret.handle 1, Ret.handle 2],
          (SpawnGrpcGateway (SpawnGrpcGateway World.empty "l" "tcp" "e" "s").2 "l" "tcp" "e" "s").2) ∧
      ((∀ h : Int, h ∉ handlesOf [Ret.handle 1, Ret.handle 2] →
        ∀ sched, WaitForGrpcGateway runFailing
          (SpawnGrpcGateway (SpawnGrpcGateway World.empty "l" "tcp" "e" "s").2 "l" "tcp" "e" "s").2
          h sched =
          some (false,
            (SpawnGrpcGateway (SpawnGrpcGateway World.empty "l" "tcp" "e" "s").2 "l" "tcp" "e" "s").2)) ∧
      (∀ h : Int, h ≤ 0 ∨
          (spawnCount [Call.spawn "l" "tcp" "e" "s", Call.spawn "l" "tcp" "e" "s"] : Int) < h →
        h ∉ handlesOf [Ret.handle 1, Ret.handle 2])) :=
  ⟨by decide,
   wait_unknown_handle_false runFailing
     [Call.spawn "l" "tcp" "e" "s", Call.spawn "l" "tcp" "e" "s"] [Ret.handle 1, Ret.handle 2]
     (SpawnGrpcGateway (SpawnGrpcGateway World.empty "l" "tcp" "e" "s").2 "l" "tcp" "e" "s").2
     (by decide)⟩

/-- C3: in every execution from the empty registry in which the calls run one
after another, the handles the spawns returned are pairwise distinct; and in
the world reached, the handle a further spawn returns has no record in the
registry, and that spawn leaves every record of the registry as it is. -/
theorem spawn_handles_distinct (Run : RunFn) (acts : List Call) (rets : List Ret) (w : World)
    (hreach : run Run World.empty acts = some (rets, w)) :
    (handlesOf rets).Nodup ∧
    (∀ a b c d, mapLookup w.servers (SpawnGrpcGateway w a b c d).1 = none) ∧
    (∀ a b c d k s, mapLookup w.servers k = some s →
        mapLookup (SpawnGrpcGateway w a b c d).2.servers k = some s) := by
  obtain ⟨h1, h2, h3⟩ := run_from_empty hreach
  have hnone : ∀ a b c d, mapLookup w.servers (SpawnGrpcGateway w a b c d).1 = none := by
    intro a b c d
    rw [spawn_handle, h3, length_registryOf, mapLookup_registryOf]
    have : ¬ ((1 : Int) ≤ (spawnCount acts : Int) + 1 ∧
        (spawnCount acts : Int) + 1 ≤ (spawnCount acts : Int)) := by omega
    rw [if_neg this]
  refine ⟨?_, hnone, ?_⟩
  · rw [h1]
    exact nodup_firstHandles _
  · intro a b c d k s hk
    have hn := hnone a b c d
    rw [spawn_handle] at hn
    rw [spawn_servers, mapStore_fresh _ _ _ hn, mapLookup_append, hk]
    rfl

/-- C3 at an execution with three spawns, a goroutine step and a wait on an
unknown handle. -/
theorem spawn_handles_distinct_witness :
    (handlesOf [Ret.handle 1, Ret.handle 2, Ret.stepped, Ret.joined false, Ret.handle 3]).Nodup ∧
    (∀ a b c d, mapLookup
        (SpawnGrpcGateway (goStep runFailing
          (SpawnGrpcGateway (SpawnGrpcGateway World.empty "l" "tcp" "e" "s").2 "l" "tcp" "e" "s").2
          0) "l" "tcp" "e" "s").2.servers
        (SpawnGrpcGateway (SpawnGrpcGateway (goStep runFailing
          (SpawnGrpcGateway (SpawnGrpcGateway World.empty "l" "tcp" "e" "s").2 "l" "tcp" "e" "s").2
          0) "l" "tcp" "e" "s").2 a b c d).1 = none) :=
  ⟨by decide,
   (spawn_handles_distinct runFailing
      [Call.spawn "l" "tcp" "e" "s", Call.spawn "l" "tcp" "e" "s", Call.go 0, Call.wait 7 [0],
        Call.spawn "l" "tcp" "e" "s"]
      [Ret.handle 1, Ret.handle 2, Ret.stepped, Ret.joined false, Ret.handle 3]
      (SpawnGrpcGateway (goStep runFailing
          (SpawnGrpcGateway (SpawnGrpcGateway World.empty "l" "tcp" "e" "s").2 "l" "tcp" "e" "s").2
          0) "l" "tcp" "e" "s").2
      (by decide)).2.1⟩

/-- C4: for every world (any registry, any heap) and every argument tuple,
after `SpawnGrpcGateway` the registry maps the returned handle to the record
whose channel and cancel function are those of the task cell this call
created (a cell that did not exist before and now holds the fresh context, the
open empty channel of capacity 1 and the goroutine before `Run`); so a wait on
that handle right after the return does not take the invalid-handle branch:
it cancels that context and receives from that channel. -/
theorem spawn_registers_handle (Run : RunFn) (w : World) (a b c d : String) :
    mapLookup (SpawnGrpcGateway w a b c d).2.servers (SpawnGrpcGateway w a b c d).1 =
        some { ch := w.tasks.length, cancel := w.tasks.length } ∧
    w.tasks[w.tasks.length]? = none ∧
    (SpawnGrpcGateway w a b c d).2.tasks[w.tasks.length]? = some (newTask a b c d) ∧
    (∀ sched, WaitForGrpcGateway Run (SpawnGrpcGateway w a b c d).2 (SpawnGrpcGateway w a b c d).1
        sched =
      (recvBlocking Run (cancelTask (SpawnGrpcGateway w a b c d).2 w.tasks.length) w.tasks.length
        sched).map (fun r => (r.1 == none, r.2))) := by
  have hl : mapLookup (SpawnGrpcGateway w a b c d).2.servers (SpawnGrpcGateway w a b c d).1 =
      some { ch := w.tasks.length, cancel := w.tasks.length } := by
    rw [spawn_servers, spawn_handle]
    exact mapLookup_mapStore_self _ _ _
  refine ⟨hl, ?_, spawn_new w a b c d, ?_⟩
  · exact List.getElem?_eq_none (Nat.le_refl _)
  · intro sched
    exact wait_known Run hl sched

/-- C8: for every world, every handle and every schedule, a wait that returns
(with true or with false, on a known or an unknown handle) leaves the map
`servers` as it was: the same handles with the same records, the same size. -/
theorem wait_keeps_registry (Run : RunFn) (w w2 : World) (h : Int) (sched : List Nat) (ok : Bool)
    (hw : WaitForGrpcGateway Run w h sched = some (ok, w2)) :
    w2.servers = w.servers ∧ (∀ k, mapLookup w2.servers k = mapLookup w.servers k) ∧
      mapKeys w2.servers = mapKeys w.servers ∧ mapLen w2.servers = mapLen w.servers := by
  have hs := wait_servers hw
  rw [hs]
  exact ⟨rfl, fun _ => rfl, rfl, rfl⟩

/-- C8 at a join of a failed task and at a wait on an unknown handle. -/
theorem wait_keeps_registry_witness :
    (WaitForGrpcGateway runFailing (SpawnGrpcGateway World.empty "l" "tcp" "e" "s").2 1 [0, 0] =
        some (false,
          { servers := [(1, { ch := 0, cancel := 0 })],
            tasks := [{ (newTask "l" "tcp" "e" "s") with
              cancelled := true, pc := Pc.atClose, err := some "unreachable backend" }] })) ∧
      ({ servers := [(1, { ch := 0, cancel := 0 })],
         tasks := [{ (newTask "l" "tcp" "e" "s") with
           cancelled := true, pc := Pc.atClose, err := some "unreachable backend" }] } : World).servers
        = (SpawnGrpcGateway World.empty "l" "tcp" "e" "s").2.servers :=
  ⟨by decide,
   (wait_keeps_registry runFailing (SpawnGrpcGateway World.empty "l" "tcp" "e" "s").2
      { servers := [(1, { ch := 0, cancel := 0 })],
        tasks := [{ (newTask "l" "tcp" "e" "s") with
          cancelled := true, pc := Pc.atClose, err := some "unreachable backend" }] }
      1 [0, 0] false (by decide)).1⟩

/-- C9: for every world and every argument tuple `SpawnGrpcGateway` returns a
handle that is at least 1; and in every execution from the empty registry
with `n` spawns, the spawns returned `1, ..., n` in this order (the k-th one
returned `k`) and the keys of the registry reached are `1, ..., n`. -/
theorem spawn_handles_count_up (Run : RunFn) :
    (∀ w a b c d, 1 ≤ (SpawnGrpcGateway w a b c d).1) ∧
    (∀ acts rets w, run Run World.empty acts = some (rets, w) →
      handlesOf rets = firstHandles (spawnCount acts) ∧
      (∀ k, k < spawnCount acts → (handlesOf rets)[k]? = some ((k : Int) + 1)) ∧
      mapKeys w.servers = firstHandles (spawnCount acts) ∧
      (∀ h : Int, (mapLookup w.servers h).isSome = true ↔ 1 ≤ h ∧ h ≤ spawnCount acts)) := by
  constructor
  · intro w a b c d
    rw [spawn_handle]
    omega
  · intro acts rets w hreach
    obtain ⟨h1, _, h3⟩ := run_from_empty hreach
    refine ⟨h1, ?_, ?_, ?_⟩
    · intro k hk
      rw [h1]
      unfold firstHandles
      rw [List.getElem?_map, List.getElem?_range' 1 1 hk]
      simp only [Option.map_some', Option.some.injEq]
      omega
    · rw [h3]
      exact mapKeys_registryOf_eq _
    · intro h
      rw [h3, mapLookup_registryOf]
      by_cases hc : 1 ≤ h ∧ h ≤ (spawnCount acts : Int)
      · rw [if_pos hc]
        exact ⟨fun _ => hc, fun _ => rfl⟩
      · rw [if_neg hc]
        exact ⟨fun x => Bool.noConfusion x, fun x => absurd x hc⟩

/-- C9 at an execution with two spawns and a goroutine step between them. -/
theorem spawn_handles_count_up_witness :
    run runFailing World.empty
        [Call.spawn "l" "tcp" "e" "s", Call.go 0, Call.spawn "l" "tcp" "e" "s"] =
      some ([Ret.handle 1, Ret.stepped, Ret.handle 2],
        (SpawnGrpcGateway (goStep runFailing (SpawnGrpcGateway World.empty "l" "tcp" "e" "s").2 0)
          "l" "tcp" "e" "s").2) ∧
    handlesOf [Ret.handle 1, Ret.stepped, Ret.handle 2] = [1, 2] ∧
    mapKeys (SpawnGrpcGateway (goStep runFailing (SpawnGrpcGateway World.empty "l" "tcp" "e" "s").2 0)
          "l" "tcp" "e" "s").2.servers = [1, 2] :=
  ⟨by decide,
   ((spawn_handles_count_up runFailing).2
      [Call.spawn "l" "tcp" "e" "s", Call.go 0, Call.spawn "l" "tcp" "e" "s"]
      [Ret.handle 1, Ret.stepped, Ret.handle 2]
      (SpawnGrpcGateway (goStep runFailing (SpawnGrpcGateway World.empty "l" "tcp" "e" "s").2 0)
          "l" "tcp" "e" "s").2 (by decide)).1,
   ((spawn_handles_count_up runFailing).2
      [Call.spawn "l" "tcp" "e" "s", Call.go 0, Call.spawn "l" "tcp" "e" "s"]
      [Ret.handle 1, Ret.stepped, Ret.handle 2]
      (SpawnGrpcGateway (goStep runFailing (SpawnGrpcGateway World.empty "l" "tcp" "e" "s").2 0)
          "l" "tcp" "e" "s").2 (by decide)).2.2.1⟩

/-- C5: after the first wait on a spawned handle has returned, and whatever is
called afterwards, every wait on that handle that returns gives true: its
receive finds the channel closed and empty, the goroutine ended, and gets the
`nil` zero value.  Such a wait returns as soon as the goroutine gets one step.
For a task whose `Run` returned an error the first wait gave false. -/
theorem later_waits_return_true (Run : RunFn) (acts mid mid2 : List Call)
    (rets rets2 rets3 : List Ret) (w w2 w3 w4 : World) (a b c d : String) (sched1 : List Nat)
    (ok1 : Bool)
    (hreach : run Run World.empty acts = some (rets, w))
    (hmid : run Run (SpawnGrpcGateway w a b c d).2 mid = some (rets2, w2))
    (hfirst : NoWaitOn (SpawnGrpcGateway w a b c d).1 mid)
    (hw1 : WaitForGrpcGateway Run w2 (SpawnGrpcGateway w a b c d).1 sched1 = some (ok1, w3))
    (hmid2 : run Run w3 mid2 = some (rets3, w4)) :
    (∀ sched ok w5,
        WaitForGrpcGateway Run w4 (SpawnGrpcGateway w a b c d).1 sched = some (ok, w5) →
        ok = true ∧ ∃ t, w5.tasks[w.tasks.length]? = some t ∧ t.pc = Pc.exited ∧
          t.ch.closed = true ∧ t.ch.buf = []) ∧
    (WaitForGrpcGateway Run w4 (SpawnGrpcGateway w a b c d).1 [w.tasks.length]).isSome = true ∧
    (∃ t, w3.tasks[w.tasks.length]? = some t ∧ (t.err ≠ none → ok1 = false)) := by
  have ha : w.Aligned := run_aligned empty_aligned hreach
  have ha1 : (SpawnGrpcGateway w a b c d).2.Aligned := spawn_aligned ha a b c d
  have ha2 : w2.Aligned := run_aligned ha1 hmid
  have ha3 : w3.Aligned := wait_aligned ha2 hw1
  have ha4 : w4.Aligned := run_aligned ha3 hmid2
  have hh : (SpawnGrpcGateway w a b c d).1 = (w.tasks.length : Int) + 1 :=
    spawn_handle_aligned ha a b c d
  rw [hh] at hfirst hw1 ⊢
  have hf1 : HoldsAt (fun t => t.Fresh Run ∧ t.opts = (newTask a b c d).opts)
      (SpawnGrpcGateway w a b c d).2 w.tasks.length :=
    ⟨newTask a b c d, spawn_new w a b c d, newTask_fresh Run a b c d, rfl⟩
  have hf2 : HoldsAt (fun t => t.Fresh Run ∧ t.opts = (newTask a b c d).opts) w2 w.tasks.length :=
    run_holdsAt_noWait (fun t ⟨x, y⟩ => ⟨x.step_fresh, by rw [Task.step_opts]; exact y⟩) ha1 hfirst
      hmid hf1
  obtain ⟨t3, ht3, hok1, hd3, ho3⟩ := wait_fresh ha2 hw1 hf2
  have hd4 : HoldsAt (fun t => t.Drained Run ∧ t.opts = (newTask a b c d).opts) w4 w.tasks.length :=
    run_drained ha3 hmid2 ⟨t3, ht3, hd3, ho3⟩
  refine ⟨?_, wait_drained_returns ha4 hd4, t3, ht3, ?_⟩
  · intro sched ok w5 hw
    obtain ⟨hok, t5, ht5, hd5, hcl, hpc⟩ := wait_drained ha4 hw hd4
    exact ⟨hok, t5, ht5, hpc, hcl, hd5.1.2.1⟩
  · intro he
    rw [hok1]
    cases h : t3.err with
    | none => exact absurd h he
    | some e => rfl

/-- C5 at a task whose `Run` fails: the first wait gives false, the second
one true. -/
theorem later_waits_return_true_witness :
    WaitForGrpcGateway runFailing (SpawnGrpcGateway World.empty "l" "tcp" "e" "s").2 1 [0, 0] =
        some (false,
          { servers := [(1, { ch := 0, cancel := 0 })],
            tasks := [{ (newTask "l" "tcp" "e" "s") with
              cancelled := true, pc := Pc.atClose, err := some "unreachable backend" }] }) ∧
    (∀ sched ok w5,
        WaitForGrpcGateway runFailing
          { servers := [(1, { ch := 0, cancel := 0 })],
            tasks := [{ (newTask "l" "tcp" "e" "s") with
              cancelled := true, pc := Pc.atClose, err := some "unreachable backend" }] }
          (SpawnGrpcGateway World.empty "l" "tcp" "e" "s").1 sched = some (ok, w5) →
        ok = true ∧ ∃ t, w5.tasks[World.empty.tasks.length]? = some t ∧ t.pc = Pc.exited ∧
          t.ch.closed = true ∧ t.ch.buf = []) ∧
    (WaitForGrpcGateway runFailing
          { servers := [(1, { ch := 0, cancel := 0 })],
            tasks := [{ (newTask "l" "tcp" "e" "s") with
              cancelled := true, pc := Pc.atClose, err := some "unreachable backend" }] }
          1 [0]).map Prod.fst = some true :=
  ⟨by decide,
   (later_waits_return_true runFailing [] [] [] [] [] [] World.empty
      (SpawnGrpcGateway World.empty "l" "tcp" "e" "s").2
      { servers := [(1, { ch := 0, cancel := 0 })],
        tasks := [{ (newTask "l" "tcp" "e" "s") with
          cancelled := true, pc := Pc.atClose, err := some "unreachable backend" }] }
      { servers := [(1, { ch := 0, cancel := 0 })],
        tasks := [{ (newTask "l" "tcp" "e" "s") with
          cancelled := true, pc := Pc.atClose, err := some "unreachable backend" }] }
      "l" "tcp" "e" "s" [0, 0] false (by decide) (by decide) (by decide) (by decide)
      (by decide)).1,
   by decide⟩

/-- C7: in every world reached from the empty registry, for every spawn and
every list of later calls: as long as nobody waited on the new handle the
task is fresh (the channel of capacity 1 is empty and open until the send,
holds nothing when `Run` returned `nil` and exactly the error `Run` returned
otherwise, and is closed once the goroutine has ended); with or without
waits, the send never blocks (from `afterRun` one step of the goroutine leads
to `atClose` with that single value appended) and the deferred close follows
(from `atClose` one step closes the channel and ends the goroutine); and a
task whose `Run` returns without any cancel has its channel closed after three
steps of the goroutine, with no wait at all. -/
theorem goroutine_sends_once_then_closes (Run : RunFn) (acts mid : List Call)
    (rets rets2 : List Ret) (w w2 : World) (a b c d : String)
    (hreach : run Run World.empty acts = some (rets, w))
    (hmid : run Run (SpawnGrpcGateway w a b c d).2 mid = some (rets2, w2)) :
    (NoWaitOn (SpawnGrpcGateway w a b c d).1 mid → HoldsAt (Task.Fresh Run) w2 w.tasks.length) ∧
    (∀ t, w2.tasks[w.tasks.length]? = some t → t.pc = Pc.afterRun →
      t.ch.buf = [] ∧ (goStep Run w2 w.tasks.length).tasks[w.tasks.length]? =
        some { t with ch := { t.ch with buf := sent t.err }, pc := Pc.atClose }) ∧
    (∀ t, w2.tasks[w.tasks.length]? = some t → t.pc = Pc.atClose →
      (goStep Run w2 w.tasks.length).tasks[w.tasks.length]? =
        some { t with ch := { t.ch with closed := true }, pc := Pc.exited }) ∧
    (∀ r, Run false (newTask a b c d).opts = some r →
      (goSteps Run (SpawnGrpcGateway w a b c d).2
          [w.tasks.length, w.tasks.length, w.tasks.length]).tasks[w.tasks.length]? =
        some { (newTask a b c d) with
          ch := { buf := sent r, cap := 1, closed := true }, pc := Pc.exited, err := r }) := by
  have ha : w.Aligned := run_aligned empty_aligned hreach
  have ha1 : (SpawnGrpcGateway w a b c d).2.Aligned := spawn_aligned ha a b c d
  have hh : (SpawnGrpcGateway w a b c d).1 = (w.tasks.length : Int) + 1 :=
    spawn_handle_aligned ha a b c d
  have hf1 : HoldsAt (Task.Fresh Run) (SpawnGrpcGateway w a b c d).2 w.tasks.length :=
    ⟨newTask a b c d, spawn_new w a b c d, newTask_fresh Run a b c d⟩
  have hg : HoldsAt (fun t => t.Fresh Run ∨ t.Drained Run) w2 w.tasks.length :=
    run_fresh_or_drained ha1 hmid (hf1.mono (fun _ x => Or.inl x))
  refine ⟨?_, ?_, ?_, ?_⟩
  · intro hn
    rw [hh] at hn
    exact run_holdsAt_noWait (fun _ x => x.step_fresh) ha1 hn hmid hf1
  · intro t ht hpc
    obtain ⟨t2, ht2, hfd⟩ := hg
    rw [ht] at ht2
    cases ht2
    obtain ⟨hb, hs⟩ := @Task.step_afterRun Run t hfd hpc
    refine ⟨hb, ?_⟩
    rw [goStep_self, ht, ← hs]
    rfl
  · intro t ht hpc
    obtain ⟨t2, ht2, hfd⟩ := hg
    rw [ht] at ht2
    cases ht2
    rw [goStep_self, ht, ← @Task.step_atClose Run t hfd hpc]
    rfl
  · intro r hr
    simp only [goSteps]
    rw [goStep_self, goStep_self, goStep_self, spawn_new, ← newTask_three_steps hr]
    rfl

/-- C7 at a task whose `Run` fails at once and that nobody joins. -/
theorem goroutine_sends_once_then_closes_witness :
    run runFailing (SpawnGrpcGateway World.empty "l" "tcp" "e" "s").2 [Call.go 0, Call.go 0] =
        some ([Ret.stepped, Ret.stepped],
          goStep runFailing (goStep runFailing
            (SpawnGrpcGateway World.empty "l" "tcp" "e" "s").2 0) 0) ∧
    (goStep runFailing (goStep runFailing (goStep runFailing
        (SpawnGrpcGateway World.empty "l" "tcp" "e" "s").2 0) 0) 0).tasks[0]? =
      some { (newTask "l" "tcp" "e" "s") with
        ch := { buf := [some "unreachable backend"], cap := 1, closed := true },
        pc := Pc.exited, err := some "unreachable backend" } :=
  ⟨by decide,
   ((goroutine_sends_once_then_closes runFailing [] [Call.go 0, Call.go 0] []
      [Ret.stepped, Ret.stepped] World.empty
      (goStep runFailing (goStep runFailing (SpawnGrpcGateway World.empty "l" "tcp" "e" "s").2 0) 0)
      "l" "tcp" "e" "s" (by decide) (by decide)).2.2.1
      { (newTask "l" "tcp" "e" "s") with
        ch := { buf := [some "unreachable backend"], cap := 1, closed := false },
        pc := Pc.atClose, err := some "unreachable backend" } (by decide) (by decide))⟩

/-- C6: in every world reached from the empty registry without a wait on
either of two distinct registered handles `h1` and `h2`, a wait on `h2` that
returns leaves the cancellation state of task `h1` as it was, and leaves the
whole cell of task `h1` (its channel included) as it was when the goroutine of
`h1` took no step meanwhile; in general all that happened to the cell of `h1`
is what steps of the goroutines alone, without the wait, do to it.  The wait
on `h2` returns true exactly when the `Run` of task `h2` returned `nil`, and a
wait on `h1` issued afterwards returns true exactly when the `Run` of task
`h1` returned `nil`. -/
theorem joins_are_independent (Run : RunFn) (acts : List Call) (rets : List Ret) (w w2 : World)
    (h1 h2 : Int) (s1 s2 : server) (sched2 : List Nat) (ok2 : Bool)
    (hreach : run Run World.empty acts = some (rets, w))
    (hs1 : mapLookup w.servers h1 = some s1) (hs2 : mapLookup w.servers h2 = some s2)
    (hne : h1 ≠ h2) (hn1 : NoWaitOn h1 acts) (hn2 : NoWaitOn h2 acts)
    (hw2 : WaitForGrpcGateway Run w h2 sched2 = some (ok2, w2)) :
    (w2.tasks[s1.cancel]?).map (fun t => t.cancelled) =
        (w.tasks[s1.cancel]?).map (fun t => t.cancelled) ∧
    (s1.ch ∉ sched2 → w2.tasks[s1.ch]? = w.tasks[s1.ch]?) ∧
    (∃ k, k ≤ sched2.length ∧
      w2.tasks[s1.ch]? = (goSteps Run w (sched2.take k)).tasks[s1.ch]?) ∧
    (∃ t, w2.tasks[s2.ch]? = some t ∧ t.Returned Run ∧ (ok2 = true ↔ t.err = none)) ∧
    (∀ sched1 ok1 w3, WaitForGrpcGateway Run w2 h1 sched1 = some (ok1, w3) →
      ∃ t, w3.tasks[s1.ch]? = some t ∧ t.Returned Run ∧ (ok1 = true ↔ t.err = none)) := by
  have ha : w.Aligned := run_aligned empty_aligned hreach
  have ha2 : w2.Aligned := wait_aligned ha hw2
  obtain ⟨i1, hi1, hh1, hss1⟩ := lookup_aligned_inv ha hs1
  obtain ⟨i2, hi2, hh2, hss2⟩ := lookup_aligned_inv ha hs2
  subst hh1 hh2 hss1 hss2
  have hne2 : (i2 : Int) + 1 ≠ (i1 : Int) + 1 := fun e => hne e.symm
  have hfresh : ∀ i, i < w.tasks.length → NoWaitOn ((i : Int) + 1) acts →
      HoldsAt (Task.Fresh Run) w i := by
    intro i hi hn
    refine run_fresh empty_aligned hn hreach ?_ hi
    intro hlt
    exact absurd hlt (Nat.not_lt_zero _)
  obtain ⟨t1, ht1, hf1⟩ := hfresh i1 hi1 hn1
  obtain ⟨t2, ht2, hf2⟩ := hfresh i2 hi2 hn2
  refine ⟨?_, ?_, wait_agree ha hne2 hw2, ?_, ?_⟩
  · obtain ⟨u, hu, hc⟩ := wait_holdsAt_other (P := fun t => t.cancelled = t1.cancelled)
      (fun t x => (Task.step_cancelled Run t).trans x) ha hne2 hw2 ⟨t1, ht1, rfl⟩
    simp only [hu, ht1, Option.map_some', hc]
  · intro hns
    exact wait_unscheduled ha hne2 hns hw2
  · obtain ⟨t, ht, hok, hd, _⟩ := wait_fresh ha hw2
      (⟨t2, ht2, hf2, rfl⟩ : HoldsAt (fun x => x.Fresh Run ∧ x.opts = t2.opts) w i2)
    refine ⟨t, ht, hd.2.2.1, ?_⟩
    rw [hok]
    cases t.err <;> simp
  · intro sched1 ok1 w3 hw1
    have hf : HoldsAt (fun x => x.Fresh Run ∧ x.opts = t1.opts) w2 i1 :=
      wait_holdsAt_other (fun t ⟨x, y⟩ => ⟨x.step_fresh, by rw [Task.step_opts]; exact y⟩) ha hne2 hw2
        ⟨t1, ht1, hf1, rfl⟩
    obtain ⟨t, ht, hok, hd, _⟩ := wait_fresh ha2 hw1 hf
    refine ⟨t, ht, hd.2.2.1, ?_⟩
    rw [hok]
    cases t.err <;> simp

/-- C6 at two tasks, the second of which fails: the second handle is joined
first (false), then the first one (true). -/
theorem joins_are_independent_witness :
    run runByAddr World.empty [Call.spawn "good" "tcp" "e" "s", Call.spawn "bad" "tcp" "e" "s"] =
        some ([Ret.handle 1, Ret.handle 2], twoTasks) ∧
    WaitForGrpcGateway runByAddr twoTasks 2 [1, 1] = some (false, twoTasksJoined) ∧
    (1 ∉ [1, 1] → twoTasksJoined.tasks[0]? = twoTasks.tasks[0]?) ∧
    (WaitForGrpcGateway runByAddr twoTasksJoined 1 [0, 0, 0]).map Prod.fst = some true :=
  ⟨by decide, by decide,
   fun _ => (joins_are_independent runByAddr
      [Call.spawn "good" "tcp" "e" "s", Call.spawn "bad" "tcp" "e" "s"]
      [Ret.handle 1, Ret.handle 2] twoTasks twoTasksJoined 1 2 { ch := 0, cancel := 0 }
      { ch := 1, cancel := 1 } [1, 1] false (by decide) (by decide) (by decide) (by decide)
      (by decide) (by decide) (by decide)).2.1 (by decide),
   by decide⟩

/-! ## Concurrent callers of `SpawnGrpcGateway` -/

theorem spawnThread_alone (w : World) (a b c d : String) :
    runThreads w [SpawnThread.init a b c d] [0, 0, 0] =
      ((SpawnGrpcGateway w a b c d).2,
        [{ (SpawnThread.init a b c d) with
            pc := SpawnPc.returned, task := w.tasks.length,
            handle := (SpawnGrpcGateway w a b c d).1 }]) := rfl

theorem mapLookup_none_of_not_mem (m : List (Int × server)) (k : Int) (h : k ∉ mapKeys m) :
    mapLookup m k = none := by
  induction m with
  | nil => rfl
  | cons p m ih =>
    obtain ⟨k2, v⟩ := p
    simp only [mapKeys, List.map_cons, List.mem_cons, not_or] at h
    have hk : ¬ k2 = k := fun e => h.1 e.symm
    simp only [mapLookup, hk, if_false]
    exact ih h.2

theorem firstHandles_succ (n : Nat) : firstHandles (n + 1) = firstHandles n ++ [(n : Int) + 1] := by
  unfold firstHandles
  rw [List.range'_1_concat, List.map_append]
  simp only [List.map_cons, List.map_nil]
  congr 2
  push_cast
  omega

theorem set_self {α : Type} (l : List α) (i : Nat) (x : α) (h : l[i]? = some x) :
    l.set i x = l := by
  induction l generalizing i with
  | nil => rfl
  | cons y l ih =>
    cases i with
    | zero =>
      simp only [List.getElem?_cons_zero, Option.some.injEq] at h
      rw [h]
      rfl
    | succ i =>
      simp only [List.getElem?_cons_succ] at h
      simp only [List.set_cons_succ, ih i h]

theorem getElem?_lt {α : Type} {l : List α} {i : Nat} {x : α} (h : l[i]? = some x) :
    i < l.length := by
  rcases Nat.lt_or_ge i l.length with hlt | hge
  · exact hlt
  · rw [List.getElem?_eq_none hge] at h
    cases h

/-- A thread that prepares (lines 25-48) keeps the invariant. -/
theorem ThreadsOk.prepare {n0 : Nat} {w : World} {ths : List SpawnThread} (h : ThreadsOk n0 w ths)
    {i : Nat} {th : SpawnThread} (hi : ths[i]? = some th) (hpc : th.pc = SpawnPc.start) :
    ThreadsOk n0 (spawnThreadStep w th).1 (ths.set i (spawnThreadStep w th).2) := by
  have hstep : spawnThreadStep w th =
      ((spawnPrepare w th.listenAddr th.network th.endpoint th.swaggerDir).1,
        { th with pc := SpawnPc.atHandle,
                  task := (spawnPrepare w th.listenAddr th.network th.endpoint th.swaggerDir).2 }) := by
    unfold spawnThreadStep
    rw [hpc]
  have hlt := getElem?_lt hi
  rw [hstep]
  refine ⟨h.keys, ?_, ?_, ?_⟩
  · intro x hx
    rcases List.mem_or_eq_of_mem_set hx with hx | hx
    · exact h.noStore x hx
    · rw [hx]
      exact SpawnPc.noConfusion
  · intro x hx hr
    rcases List.mem_or_eq_of_mem_set hx with hx | hx
    · exact h.range x hx hr
    · rw [hx] at hr
      exact SpawnPc.noConfusion hr
  · intro a b ta tb hab ha hb hra hrb
    rw [List.getElem?_set] at ha hb
    by_cases hia : i = a
    · rw [if_pos hia, if_pos hlt] at ha
      cases ha
      exact SpawnPc.noConfusion hra
    · by_cases hib : i = b
      · rw [if_pos hib, if_pos hlt] at hb
        cases hb
        exact SpawnPc.noConfusion hrb
      · rw [if_neg hia] at ha
        rw [if_neg hib] at hb
        exact h.distinct a b ta tb hab ha hb hra hrb

/-- A thread that reads `len(servers)` and stores right away keeps the
invariant. -/
theorem ThreadsOk.critical {n0 : Nat} {w : World} {ths : List SpawnThread}
    (h : ThreadsOk n0 w ths) (hn : n0 ≤ w.servers.length) {i : Nat} {th : SpawnThread}
    (hi : ths[i]? = some th) :
    ThreadsOk n0 (spawnStore w (spawnHandle w) th.task th.task)
      (ths.set i { th with pc := SpawnPc.returned, handle := spawnHandle w }) ∧
    (spawnStore w (spawnHandle w) th.task th.task).servers.length = w.servers.length + 1 := by
  have hlt := getElem?_lt hi
  have hfresh : mapLookup w.servers (spawnHandle w) = none := by
    apply mapLookup_none_of_not_mem
    rw [h.keys, mem_firstHandles]
    unfold spawnHandle mapLen
    omega
  have hserv : (spawnStore w (spawnHandle w) th.task th.task).servers =
      w.servers ++ [(spawnHandle w, { ch := th.task, cancel := th.task })] :=
    mapStore_fresh _ _ _ hfresh
  have hlen : (spawnStore w (spawnHandle w) th.task th.task).servers.length =
      w.servers.length + 1 := by
    rw [hserv]
    simp
  refine ⟨⟨?_, ?_, ?_, ?_⟩, hlen⟩
  · rw [hlen, firstHandles_succ, hserv]
    unfold mapKeys
    rw [List.map_append, ← mapKeys, h.keys]
    rfl
  · intro x hx
    rcases List.mem_or_eq_of_mem_set hx with hx | hx
    · exact h.noStore x hx
    · rw [hx]
      exact SpawnPc.noConfusion
  · intro x hx hr
    rw [hlen]
    rcases List.mem_or_eq_of_mem_set hx with hx | hx
    · have := h.range x hx hr
      constructor
      · exact this.1
      · push_cast
        omega
    · rw [hx]
      simp only [spawnHandle, mapLen]
      constructor
      · omega
      · push_cast
        omega
  · intro a b ta tb hab ha hb hra hrb
    rw [List.getElem?_set] at ha hb
    by_cases hia : i = a
    · have hib : ¬ i = b := fun e => hab (hia.symm.trans e)
      rw [if_pos hia, if_pos hlt] at ha
      rw [if_neg hib] at hb
      cases ha
      have := (h.range tb (List.getElem?_mem hb) hrb).2
      simp only [spawnHandle, mapLen]
      omega
    · rw [if_neg hia] at ha
      by_cases hib : i = b
      · rw [if_pos hib, if_pos hlt] at hb
        cases hb
        have := (h.range ta (List.getElem?_mem ha) hra).2
        simp only [spawnHandle, mapLen]
        omega
      · rw [if_neg hib] at hb
        exact h.distinct a b ta tb hab ha hb hra hrb

theorem runThreads_cons_some {w : World} {ths : List SpawnThread} {i : Nat} {th : SpawnThread}
    (hi : ths[i]? = some th) (rest : List Nat) :
    runThreads w ths (i :: rest) =
      runThreads (spawnThreadStep w th).1 (ths.set i (spawnThreadStep w th).2) rest := by
  simp only [runThreads, hi]

theorem atomicFrom_cons_some {w : World} {ths : List SpawnThread} {i : Nat} {th : SpawnThread}
    (hi : ths[i]? = some th) (rest : List Nat) :
    atomicFrom w ths (i :: rest) =
      ((th.pc != SpawnPc.atHandle || rest.head? == some i) &&
        atomicFrom (spawnThreadStep w th).1 (ths.set i (spawnThreadStep w th).2) rest) := by
  simp only [atomicFrom, hi]

/-- Along a schedule with atomic sections the invariant holds at the end. -/
theorem runThreads_ok {n0 : Nat} (n : Nat) :
    ∀ (sched : List Nat), sched.length ≤ n → ∀ (w : World) (ths : List SpawnThread),
      ThreadsOk n0 w ths → n0 ≤ w.servers.length → atomicFrom w ths sched = true →
      ThreadsOk n0 (runThreads w ths sched).1 (runThreads w ths sched).2 := by
  induction n with
  | zero =>
    intro sched hl w ths hok _ _
    cases sched with
    | nil => exact hok
    | cons i rest => simp at hl
  | succ n ih =>
    intro sched hl w ths hok hn hat
    cases sched with
    | nil => exact hok
    | cons i rest =>
      have hl1 : rest.length ≤ n := by
        simp only [List.length_cons] at hl
        omega
      cases hi : ths[i]? with
      | none =>
        have e1 : runThreads w ths (i :: rest) = runThreads w ths rest := by
          simp only [runThreads, hi]
        have e2 : atomicFrom w ths (i :: rest) = atomicFrom w ths rest := by
          simp only [atomicFrom, hi]
        rw [e1]
        rw [e2] at hat
        exact ih rest hl1 w ths hok hn hat
      | some th =>
        rw [runThreads_cons_some hi]
        rw [atomicFrom_cons_some hi, Bool.and_eq_true] at hat
        obtain ⟨hhead, hat1⟩ := hat
        cases hpc : th.pc with
        | start =>
          have hs : (spawnThreadStep w th).1.servers = w.servers := by
            unfold spawnThreadStep
            rw [hpc]
            rfl
          exact ih rest hl1 _ _ (hok.prepare hi hpc) (by rw [hs]; exact hn) hat1
        | atHandle =>
          have hstep : spawnThreadStep w th =
              (w, { th with pc := SpawnPc.atStore, handle := spawnHandle w }) := by
            unfold spawnThreadStep
            rw [hpc]
          rw [hpc] at hhead
          simp only [bne_self_eq_false, Bool.false_or, beq_iff_eq] at hhead
          cases rest with
          | nil => simp at hhead
          | cons i2 rest2 =>
            simp only [List.head?_cons, Option.some.injEq] at hhead
            subst hhead
            have hlt := getElem?_lt hi
            have hi2 : (ths.set i2 (spawnThreadStep w th).2)[i2]? = some (spawnThreadStep w th).2 := by
              rw [List.getElem?_set, if_pos rfl, if_pos hlt]
            rw [runThreads_cons_some hi2]
            rw [atomicFrom_cons_some hi2, Bool.and_eq_true] at hat1
            have hat2 := hat1.2
            have hstep2 : spawnThreadStep (spawnThreadStep w th).1 (spawnThreadStep w th).2 =
                (spawnStore w (spawnHandle w) th.task th.task,
                  { th with pc := SpawnPc.returned, handle := spawnHandle w }) := by
              rw [hstep]
              rfl
            rw [hstep2, List.set_set] at hat2 ⊢
            have hl2 : rest2.length ≤ n := by
              simp only [List.length_cons] at hl1
              omega
            obtain ⟨hok2, hlen2⟩ := hok.critical hn hi
            exact ih rest2 hl2 _ _ hok2 (by rw [hlen2]; omega) hat2
        | atStore => exact absurd hpc (hok.noStore th (List.getElem?_mem hi))
        | returned =>
          have hstep : spawnThreadStep w th = (w, th) := by
            unfold spawnThreadStep
            rw [hpc]
          rw [hstep, set_self ths i th hi] at hat1 ⊢
          exact ih rest hl1 w ths hok hn hat1

/-- C10 fails as stated: nothing guards `servers`, and it is not so that in
every interleaving of spawn calls on different threads no two compute the same
handle.  Two threads that both read `len(servers)` before either of them
stores both return handle 1, and the second store overwrites the record of
the first. -/
theorem interleaved_spawns_share_handle :
    ¬ (∀ (ths : List SpawnThread) (sched : List Nat) (i j : Nat) (ti tj : SpawnThread),
        (∀ th ∈ ths, th.pc = SpawnPc.start) → i ≠ j →
        (runThreads World.empty ths sched).2[i]? = some ti →
        (runThreads World.empty ths sched).2[j]? = some tj →
        ti.pc = SpawnPc.returned → tj.pc = SpawnPc.returned → ti.handle ≠ tj.handle) ∧
    (runThreads World.empty [SpawnThread.init "l1" "tcp" "e" "s", SpawnThread.init "l2" "tcp" "e" "s"]
        [0, 1, 0, 1, 0, 1]).2.map (fun th => (th.pc, th.handle)) =
      [(SpawnPc.returned, 1), (SpawnPc.returned, 1)] ∧
    (runThreads World.empty [SpawnThread.init "l1" "tcp" "e" "s", SpawnThread.init "l2" "tcp" "e" "s"]
        [0, 1, 0, 1, 0, 1]).1.servers = [(1, { ch := 1, cancel := 1 })] := by
  refine ⟨?_, by decide, by decide⟩
  intro h
  exact h [SpawnThread.init "l1" "tcp" "e" "s", SpawnThread.init "l2" "tcp" "e" "s"]
    [0, 1, 0, 1, 0, 1] 0 1
    { (SpawnThread.init "l1" "tcp" "e" "s") with pc := SpawnPc.returned, task := 0, handle := 1 }
    { (SpawnThread.init "l2" "tcp" "e" "s") with pc := SpawnPc.returned, task := 1, handle := 1 }
    (by decide) (by decide) (by decide) (by decide) rfl rfl rfl

/-- C10 as amended: the code takes no lock, and the read of `len(servers)`
and the store are two steps of a thread.  From every world reached from the
empty registry, for every set of threads about to call `SpawnGrpcGateway` and
every interleaving of their steps in which the store of each thread directly
follows its own read of `len(servers)`, no two threads that returned computed
the same handle, and none computed a handle that was returned before. -/
theorem atomic_spawns_distinct (Run : RunFn) (acts : List Call) (rets : List Ret) (w : World)
    (ths : List SpawnThread) (sched : List Nat)
    (hreach : run Run World.empty acts = some (rets, w))
    (hstart : ∀ th ∈ ths, th.pc = SpawnPc.start)
    (hatomic : atomicFrom w ths sched = true) :
    (∀ (i j : Nat) (ti tj : SpawnThread), i ≠ j →
      (runThreads w ths sched).2[i]? = some ti → (runThreads w ths sched).2[j]? = some tj →
      ti.pc = SpawnPc.returned → tj.pc = SpawnPc.returned → ti.handle ≠ tj.handle) ∧
    (∀ (i : Nat) (ti : SpawnThread), (runThreads w ths sched).2[i]? = some ti →
      ti.pc = SpawnPc.returned → ti.handle ∉ handlesOf rets) := by
  obtain ⟨h1, _, h3⟩ := run_from_empty hreach
  have hlen : w.servers.length = spawnCount acts := by
    rw [h3, length_registryOf]
  have hok : ThreadsOk (spawnCount acts) w ths := by
    refine ⟨?_, ?_, ?_, ?_⟩
    · rw [hlen, h3]
      exact mapKeys_registryOf_eq _
    · intro th hth e
      rw [hstart th hth] at e
      exact SpawnPc.noConfusion e
    · intro th hth e
      rw [hstart th hth] at e
      exact SpawnPc.noConfusion e
    · intro i j ti tj _ hi _ e _
      rw [hstart ti (List.getElem?_mem hi)] at e
      exact SpawnPc.noConfusion e
  have hend := runThreads_ok sched.length sched (Nat.le_refl _) w ths hok (by rw [hlen]) hatomic
  refine ⟨hend.distinct, ?_⟩
  intro i ti hi hr hmem
  rw [h1, mem_firstHandles] at hmem
  have := (hend.range ti (List.getElem?_mem hi) hr).1
  omega

/-- C10 as amended, at two threads after one earlier spawn: the two threads
prepare in turn, then the second one reads and stores, then the first. -/
theorem atomic_spawns_distinct_witness :
    run runFailing World.empty [Call.spawn "l" "tcp" "e" "s"] =
        some ([Ret.handle 1], (SpawnGrpcGateway World.empty "l" "tcp" "e" "s").2) ∧
    atomicFrom (SpawnGrpcGateway World.empty "l" "tcp" "e" "s").2
        [SpawnThread.init "l1" "tcp" "e" "s", SpawnThread.init "l2" "tcp" "e" "s"]
        [0, 1, 1, 1, 0, 0] = true ∧
    (runThreads (SpawnGrpcGateway World.empty "l" "tcp" "e" "s").2
        [SpawnThread.init "l1" "tcp" "e" "s", SpawnThread.init "l2" "tcp" "e" "s"]
        [0, 1, 1, 1, 0, 0]).2.map (fun th => (th.pc, th.handle)) =
      [(SpawnPc.returned, 3), (SpawnPc.returned, 2)] ∧
    (∀ (i j : Nat) (ti tj : SpawnThread), i ≠ j →
      (runThreads (SpawnGrpcGateway World.empty "l" "tcp" "e" "s").2
        [SpawnThread.init "l1" "tcp" "e" "s", SpawnThread.init "l2" "tcp" "e" "s"]
        [0, 1, 1, 1, 0, 0]).2[i]? = some ti →
      (runThreads (SpawnGrpcGateway World.empty "l" "tcp" "e" "s").2
        [SpawnThread.init "l1" "tcp" "e" "s", SpawnThread.init "l2" "tcp" "e" "s"]
        [0, 1, 1, 1, 0, 0]).2[j]? = some tj →
      ti.pc = SpawnPc.returned → tj.pc = SpawnPc.returned → ti.handle ≠ tj.handle) :=
  ⟨by decide, by decide, by decide,
   (atomic_spawns_distinct runFailing [Call.spawn "l" "tcp" "e" "s"] [Ret.handle 1]
      (SpawnGrpcGateway World.empty "l" "tcp" "e" "s").2
      [SpawnThread.init "l1" "tcp" "e" "s", SpawnThread.init "l2" "tcp" "e" "s"]
      [0, 1, 1, 1, 0, 0] (by decide) (by decide) (by decide)).1⟩

end GrpcGateway
